import Mathlib

/-!
Verification of the identifier-string repository (SPL document canonicalizer and
template engine).  The Python sources embedded here are:

* src/src/idstring/model.py   — entity extraction (Chains, Polymers, Modifications)
* src/identifier_string.py    — template engine (parse, TextGenerator, StringTemplate,
                                IdentifierStringTemplate visitor, Rules) and pipeline

Python machine-level behaviour is modelled explicitly: exceptions become an
explicit error type (Err), XML query results become lists stored in node
structures, and Python string comparison becomes code-point lexicographic
comparison on lists of characters.
-/

/-- Python exceptions that the embedded code can raise.  SPLDocumentError is the
repository's own exception class; the others are Python built-ins raised by the
source: KeyError (dict lookup miss), NameError (reference to an undefined name,
e.g. the never-defined ParserError class and the stray self in
make_attachment_points), IndexError (sequence index out of range),
AttributeError (missing attribute, e.g. str has no to_string),
TypeError (comparing None with str while sorting), UnboundLocalError
(local variable referenced before assignment in StringTemplate.load), and a
marker for the one spot where the source loops forever (match_parameter's
stuck state). -/
inductive Err where
  | splDocument (msg : String)
  | keyError (key : String)
  | nameError (nm : String)
  | indexError
  | attributeError (attr : String)
  | typeError
  | unboundLocal (nm : String)
  | nonTermination
deriving DecidableEq

instance {ε α : Type} [DecidableEq ε] [DecidableEq α] : DecidableEq (Except ε α) := fun x y =>
  match x, y with
  | .ok a, .ok b =>
      if h : a = b then .isTrue (by rw [h]) else .isFalse (by intro hc; cases hc; exact h rfl)
  | .error a, .error b =>
      if h : a = b then .isTrue (by rw [h]) else .isFalse (by intro hc; cases hc; exact h rfl)
  | .ok _, .error _ => .isFalse (by intro hc; cases hc)
  | .error _, .ok _ => .isFalse (by intro hc; cases hc)

/-- Effectful map over a list in the Except monad: the embedding of a Python
for-loop that builds a list and lets exceptions propagate (processing stops at
the first raise). -/
def mapE {α β : Type} (f : α → Except Err β) : List α → Except Err (List β)
  | [] => .ok []
  | x :: xs =>
    match f x with
    | .error e => .error e
    | .ok y =>
      match mapE f xs with
      | .error e => .error e
      | .ok ys => .ok (y :: ys)

/-- Python dict assignment d[k] = v: replace the binding if the key exists,
otherwise append it. -/
def dictSet {β : Type} : List (String × β) → String → β → List (String × β)
  | [], k, v => [(k, v)]
  | (k', v') :: rest, k, v =>
    if k' = k then (k, v) :: rest else (k', v') :: dictSet rest k v

/-- Python dict lookup d[k] (keys are unique because bindings are made with
dictSet / buildDict). -/
def dictLookup {β : Type} : List (String × β) → String → Option β
  | [], _ => none
  | (k', v') :: rest, k => if k' = k then some v' else dictLookup rest k

/-- Python dict comprehension with key function: later items overwrite earlier
ones with the same key. -/
def buildDict {β : Type} (key : β → String) (l : List β) : List (String × β) :=
  l.foldl (fun d x => dictSet d (key x) x) []

/-- Python code-point comparison of strings, s < t, as a Bool over char lists. -/
def lexLtB : List Char → List Char → Bool
  | [], [] => false
  | [], _ :: _ => true
  | _ :: _, [] => false
  | a :: as, b :: bs =>
    if a.toNat < b.toNat then true
    else if b.toNat < a.toNat then false
    else lexLtB as bs

/-- String strict comparison, as Python compares str values. -/
def strLt (a b : String) : Bool := lexLtB a.data b.data

/-- String non-strict comparison. -/
def strLe (a b : String) : Bool := strLt a b || a = b

-- ------------------------------------------------------------------
-- Entity model (src/src/idstring/model.py)
-- ------------------------------------------------------------------

/-- Chain entity of model.py after canonical naming: local_id and value are read
from the document, name is assigned after sorting ("chain0", "chain1", ...). -/
structure Chain where
  local_id : String
  value : String
  name : String
deriving DecidableEq

/-- Chain data as first constructed by Chains._load, before sorting and naming
(in the source the name field is simply still None at this point). -/
structure RawChain where
  local_id : String
  value : String
deriving DecidableEq

/-- One chain-moiety node of the document, carrying the results of the two
XPath queries Chains._load runs against it: the local id attribute list and the
amino-acid sequence text list. -/
structure ChainNode where
  local_ids : List String
  values : List String
deriving DecidableEq

/-- Embedding of the per-node body of Chains._load: a missing local id or a
missing sequence value raises SPLDocumentError. -/
def readChainNode (n : ChainNode) : Except Err RawChain :=
  match n.local_ids with
  | [] => .error (.splDocument "local id not found")
  | lid :: _ =>
    match n.values with
    | [] => .error (.splDocument "Polypeptide chain AA sequence not found")
    | v :: _ => .ok ⟨lid, v⟩

/-- Sort key of Chains._load: the Python tuple (x.value, x.local_id) compared
lexicographically; the relation is the non-strict order induced by that key. -/
def leChainKey (a b : RawChain) : Prop :=
  strLt a.value b.value = true ∨ (a.value = b.value ∧ strLe a.local_id b.local_id = true)

instance : DecidableRel leChainKey := fun a b => by
  unfold leChainKey; infer_instance

/-- Naming loop of Chains._load: chain.name = "chain" + counter, counter starts
at 0 and increases by one per chain in sorted order. -/
def nameChains : Nat → List RawChain → List Chain
  | _, [] => []
  | i, c :: cs => ⟨c.local_id, c.value, "chain" ++ toString i⟩ :: nameChains (i + 1) cs

/-- Embedding of Chains.__init__/_load: read every chain-moiety node, sort by
(value, local_id), then assign names by post-sort position. -/
def chainsLoad (nodes : List ChainNode) : Except Err (List Chain) :=
  match mapE readChainNode nodes with
  | .error e => .error e
  | .ok raw => .ok (nameChains 0 (List.insertionSort leChainKey raw))

/-- Chains.__getitem__ via the _lookup dict keyed on local_id (built from the
sorted, named list; a dict comprehension keeps the last binding per key).
A missing key raises Python KeyError. -/
def chainLookupE (chains : List Chain) (key : String) : Except Err Chain :=
  match dictLookup (buildDict Chain.local_id chains) key with
  | none => .error (.keyError key)
  | some c => .ok c

/-- Connection point of a polymer: a pair of position-number attributes read
from a C118427 moiety; to_string renders "N{amino}C{carboxyl}". -/
structure ConnPoint where
  amino : String
  carboxyl : String
deriving DecidableEq

/-- ConnectionPoint.to_string of model.py. -/
def connPointToString (p : ConnPoint) : String :=
  "N" ++ p.amino ++ "C" ++ p.carboxyl

/-- Quantity value object of get_quantity, single-value branch (the range
branch of the source never constructs a value: it fails first, see
getQuantity). All fields are attribute strings. -/
structure Quantity where
  num : String
  denom : String
  unit : String
deriving DecidableEq

/-- Polymer entity after canonical naming. value is the chemical-structure
text, which get_chem_structure may fail to find (None). -/
structure Polymer where
  code : String
  value : Option String
  conn_points : List ConnPoint
  quantity : Quantity
  name : String
deriving DecidableEq

/-- Polymer data before sorting and naming. -/
structure RawPolymer where
  code : String
  value : Option String
  conn_points : List ConnPoint
  quantity : Quantity
deriving DecidableEq

/-- One moiety child element of an other-substance subject, carrying the query
results Polymers._load reads from it: its own code attributes (x:code/@code,
used to recognise C118427 connection-point moieties), its partMoiety codes
(used by get_moiety to locate the structural moiety), its positionNumber
values, the five chemical-structure query results of CHEMICAL_STRUCT in order,
and the quantity numerator/denominator elements as attribute dicts. -/
structure SubjMoiety where
  codeAttrs : List String
  partCodes : List String
  positions : List String
  chem : List (List String)
  numerators : List (List (String × String))
  denominators : List (List (String × String))
deriving DecidableEq

/-- One other-substance subject node: its code attributes and its moiety
children. -/
structure SubjectNode where
  codes : List String
  moieties : List SubjMoiety
  moietyCodes : List String
deriving DecidableEq

/-- get_chem_structure with mediaType None: walk the CHEMICAL_STRUCT queries in
order and return the first query result that has a node; None if all are
empty. -/
def getChemStructure (m : SubjMoiety) : Option String :=
  (m.chem.filterMap List.head?).head?

/-- get_quantity of model.py.  The numerator and denominator elements are
fetched with [0] (IndexError when absent); their unit/value attributes with
dict access (KeyError when absent).  When the numerator has no value attribute
the source takes the range branch, which immediately fails: it calls
numerator.xapth — a misspelling of xpath — so Python raises AttributeError
before the (also misspelled) QuantityRange class would even be referenced. -/
def getQuantity (m : SubjMoiety) : Except Err Quantity :=
  match m.numerators with
  | [] => .error .indexError
  | num :: _ =>
    match m.denominators with
    | [] => .error .indexError
    | den :: _ =>
      match dictLookup den "unit" with
      | none => .error (.keyError "unit")
      | some unit =>
        match dictLookup den "value" with
        | none => .error (.keyError "value")
        | some dval =>
          match dictLookup num "value" with
          | some nv => .ok ⟨nv, dval, unit⟩
          | none => .error (.attributeError "xapth")

/-- get_connection_points: every C118427 moiety of the subject contributes one
ConnectionPoint from its first two positionNumber values; positions[0] or
positions[1] on a shorter list raises IndexError. -/
def getConnectionPoints (s : SubjectNode) : Except Err (List ConnPoint) :=
  mapE
    (fun m =>
      match m.positions with
      | p0 :: p1 :: _ => .ok ⟨p0, p1⟩
      | _ => .error .indexError)
    (s.moieties.filter (fun m => m.codeAttrs.contains "C118427"))

/-- Embedding of the per-subject body of Polymers._load: read_code, get_moiety
(two-step indirection through the classification code), connection points,
chemical structure and quantity, in source order. -/
def readSubjectNode (s : SubjectNode) : Except Err RawPolymer :=
  match s.codes with
  | [code] =>
    match s.moietyCodes with
    | [mc] =>
      match s.moieties.filter (fun m => m.partCodes.contains mc) with
      | [moiety] =>
        match getConnectionPoints s with
        | .error e => .error e
        | .ok conns =>
          match getQuantity moiety with
          | .error e => .error e
          | .ok q => .ok ⟨code, getChemStructure moiety, conns, q⟩
      | _ => .error (.splDocument ("Moiety \"" ++ mc ++ "\" not found"))
    | _ => .error (.splDocument "Moiety code not found")
  | _ => .error (.splDocument "Aux substance code not found")

/-- Strict order on optional chemical-structure values as Python compares the
first components of the sort keys.  Python only ever compares two None values
(equal) or two strings; comparing None with a string raises TypeError, which
polymersLoad detects separately (mixedValues), so the cross cases here are
unreachable there and are completed arbitrarily (none first). -/
def optValLt (a b : Option String) : Bool :=
  match a, b with
  | none, none => false
  | none, some _ => true
  | some _, none => false
  | some x, some y => strLt x y

/-- Sort key of Polymers._load: the Python tuple (x.value, x.code). -/
def lePolyKey (a b : RawPolymer) : Prop :=
  optValLt a.value b.value = true ∨ (a.value = b.value ∧ strLe a.code b.code = true)

instance : DecidableRel lePolyKey := fun a b => by
  unfold lePolyKey; infer_instance

/-- Whether the extracted polymers mix absent and present chemical-structure
values; in that case Python's sort compares None with str and raises
TypeError. -/
def mixedValues (l : List RawPolymer) : Bool :=
  l.any (fun p => p.value.isNone) && l.any (fun p => p.value.isSome)

/-- Naming loop of Polymers._load: x.name = "poly" + counter in sorted order. -/
def namePolymers : Nat → List RawPolymer → List Polymer
  | _, [] => []
  | i, p :: ps =>
    ⟨p.code, p.value, p.conn_points, p.quantity, "poly" ++ toString i⟩ :: namePolymers (i + 1) ps

/-- Embedding of Polymers.__init__/_load: read every other-substance subject,
sort by (value, code) — raising TypeError when values mix None and str — and
assign names by post-sort position. -/
def polymersLoad (subjects : List SubjectNode) : Except Err (List Polymer) :=
  match mapE readSubjectNode subjects with
  | .error e => .error e
  | .ok raw =>
    if mixedValues raw then .error .typeError
    else .ok (namePolymers 0 (List.insertionSort lePolyKey raw))

/-- Polymers.__getitem__ via the _lookup dict keyed on code.  In the source the
dict is built before the naming loop but holds references to the very objects
the loop then names, so looking up after construction yields named polymers;
the immutable embedding therefore builds the dict from the named list. -/
def polymerLookupE (polymers : List Polymer) (key : String) : Except Err Polymer :=
  match dictLookup (buildDict Polymer.code polymers) key with
  | none => .error (.keyError key)
  | some p => .ok p

-- ------------------------------------------------------------------
-- Modifications (src/src/idstring/model.py, lines 189-372)
-- ------------------------------------------------------------------

/-- SubstitutionPoint of model.py.  The chain and polymer properties return the
referenced entities' canonical names, which are fixed strings by the time any
point is built (Chains and Polymers are constructed first), so the embedding
stores the names directly.  connection_point is positions[0] of the bond (the
position on the irregular polymer) and position is positions[1] (the position
on the protein chain).  name is set later by Substitution.set_name. -/
structure SubstitutionPoint where
  polymerName : String
  connection_point : Int
  chainName : String
  position : Int
  name : Option String
deriving DecidableEq

/-- SubstitutionPoint.__lt__: strict lexicographic comparison of
(polymer, connection_point, chain, position). -/
def ltPoint (a b : SubstitutionPoint) : Bool :=
  if strLt a.polymerName b.polymerName then true
  else if strLt b.polymerName a.polymerName then false
  else if a.connection_point < b.connection_point then true
  else if b.connection_point < a.connection_point then false
  else if strLt a.chainName b.chainName then true
  else if strLt b.chainName a.chainName then false
  else if a.position < b.position then true
  else if b.position < a.position then false
  else false

/-- Non-strict companion of ltPoint, the order in which Python's stable sort
leaves substitution points (a before b exactly when not b < a). -/
def lePoint (a b : SubstitutionPoint) : Prop := ltPoint b a = false

instance : DecidableRel lePoint := fun a b => by
  unfold lePoint; infer_instance

/-- Substitution group: its constructor sorts the points with the point order
(Python sorted over __lt__, a stable sort). -/
structure Substitution where
  points : List SubstitutionPoint
deriving DecidableEq

/-- Substitution.__lt__ of model.py, verbatim: walk the zipped point lists and
return False as soon as some point of the right group is below the
corresponding point of the left group, True otherwise.  This is not a strict
order (two equal groups compare True both ways, incomparable point pairs make
both directions False). -/
def ltGroup (a b : Substitution) : Bool :=
  (a.points.zip b.points).all (fun lr => ltPoint lr.2 lr.1 = false)

/-- AttachmentPoint of model.py; as with substitution points the chain
reference is its canonical name. -/
structure AttachmentPoint where
  glycan : String
  chainName : String
  position : Int
deriving DecidableEq

/-- AttachmentPoint.__lt__: strict lexicographic comparison of
(glycan, chain, position). -/
def ltAtt (a b : AttachmentPoint) : Bool :=
  if strLt a.glycan b.glycan then true
  else if strLt b.glycan a.glycan then false
  else if strLt a.chainName b.chainName then true
  else if strLt b.chainName a.chainName then false
  else if a.position < b.position then true
  else if b.position < a.position then false
  else false

/-- Non-strict companion of ltAtt. -/
def leAtt (a b : AttachmentPoint) : Prop := ltAtt b a = false

instance : DecidableRel leAtt := fun a b => by
  unfold leAtt; infer_instance

/-- One bond element of a modification moiety: its distalMoiety id extensions
and its positionNumber values (the int() conversion of the source is folded
into the node representation). -/
structure BondNode where
  distalIds : List String
  positions : List Int
deriving DecidableEq

/-- One partMoiety node of a C118425 modification moiety, with its code
attributes and its bonds split by bond category as the two XPath queries of
Modifications._load split them: C118426 substitution bonds and C14050
attachment bonds. -/
structure ModNode where
  codes : List String
  subBonds : List BondNode
  attBonds : List BondNode
deriving DecidableEq

/-- make_substitution_points of model.py: for each bond read the distal chain
local id ([0] raises IndexError when absent), resolve the chain (KeyError when
the local id is unknown — note this happens before the position check), then
require exactly two position numbers (SPLDocumentError otherwise) and build the
point.  The group constructor then sorts the points. -/
def makeSubstitutionPoints (bonds : List BondNode) (irregAA : Polymer)
    (chains : List Chain) : Except Err Substitution :=
  match
    mapE
      (fun bond =>
        match bond.distalIds with
        | [] => .error .indexError
        | lid :: _ =>
          match chainLookupE chains lid with
          | .error e => .error e
          | .ok chain =>
            match bond.positions with
            | [p0, p1] => .ok (⟨irregAA.name, p0, chain.name, p1, none⟩ : SubstitutionPoint)
            | _ => .error (.splDocument "Expecting two position per bond"))
      bonds
  with
  | .error e => .error e
  | .ok pts => .ok ⟨List.insertionSort lePoint pts⟩

/-- make_attachment_points of model.py.  The function is a generator whose
first iteration raises SPLDocumentError unless there is exactly one bond; for
the single bond it reads the distal local id ([0] — IndexError when absent),
evaluates chain_lookup(local_id) (KeyError on an unknown id) and then executes
the assignment self.chain = ..., but self is not a name in this plain
function, so Python raises NameError before any AttachmentPoint can be built
(the later yield also references the undefined name chain). -/
def makeAttachmentPoints (glycanCode : String) (bonds : List BondNode)
    (chains : List Chain) : Except Err (List AttachmentPoint) :=
  match bonds with
  | [bond] =>
    match bond.distalIds with
    | [] => .error .indexError
    | lid :: _ =>
      match chainLookupE chains lid with
      | .error e => .error e
      | .ok _chain =>
        let _ := glycanCode
        .error (.nameError "self")
  | _ => .error (.splDocument "Expecting one amino acid substitution point element")

/-- Per-node body of Modifications._load: read the moiety substance code
(SPLDocumentError unless exactly one), build one substitution group when the
node has C118426 bonds (evaluating polymer_lookup(code) first, as Python
evaluates the call's arguments — KeyError on an unknown code), and attachment
points when it has C14050 bonds. -/
def processModNode (chains : List Chain) (polymers : List Polymer) (node : ModNode) :
    Except Err (Option Substitution × List AttachmentPoint) :=
  match node.codes with
  | [code] =>
    match
      (if node.subBonds.isEmpty then .ok none
       else
         match polymerLookupE polymers code with
         | .error e => .error e
         | .ok poly =>
           match makeSubstitutionPoints node.subBonds poly chains with
           | .error e => .error e
           | .ok sub => .ok (some sub) : Except Err (Option Substitution))
    with
    | .error e => .error e
    | .ok sub? =>
      match
        (if node.attBonds.isEmpty then .ok []
         else makeAttachmentPoints code node.attBonds chains : Except Err (List AttachmentPoint))
      with
      | .error e => .error e
      | .ok atts => .ok (sub?, atts)
  | _ => .error (.splDocument "Moiety substance code not found")

-- ------------------------------------------------------------------
-- CPython list.sort for a possibly inconsistent __lt__
-- ------------------------------------------------------------------

/-- Binary-search loop of CPython's binarysort: shrink [l, r) with the
comparison pivot < a[m], landing on the rightmost stable position.  The width
r - l shrinks by at least one per step, so the step count is bounded by it;
the loop is written as recursion on that bound (the callers pass r - l
exactly, making the exhausted-fuel branch unreachable). -/
def binInsertPosGo (lt : α → α → Bool) (s : List α) (x : α) : Nat → Nat → Nat → Nat
  | 0, l, _ => l
  | steps + 1, l, r =>
    if l < r then
      let m := l + (r - l) / 2
      if lt x (s.getD m x) then binInsertPosGo lt s x steps l m
      else binInsertPosGo lt s x steps (m + 1) r
    else l

/-- Binary-search insertion position of binarysort over the whole sorted
prefix.  Used for the substitution-group sort, whose comparator is not a
strict order, so the concrete algorithm matters (for inputs shorter than 64
CPython runs exactly one run detection followed by this binary insertion). -/
def binInsertPos (lt : α → α → Bool) (s : List α) (x : α) : Nat :=
  binInsertPosGo lt s x s.length 0 s.length

/-- Insert x at position i. -/
def insertAt (l : List α) (i : Nat) (x : α) : List α :=
  l.take i ++ x :: l.drop i

/-- Binary insertion of the elements after the initial run, one at a time. -/
def binarySortLoop (lt : α → α → Bool) (sorted : List α) : List α → List α
  | [] => sorted
  | x :: rest =>
    binarySortLoop lt (insertAt sorted (binInsertPos lt sorted x) x) rest

/-- Ascending-run collection of CPython's count_run: extend while not
a[k] < a[k-1]. -/
def ascRun (lt : α → α → Bool) (prev : α) : List α → (List α × List α)
  | [] => ([prev], [])
  | c :: cs =>
    if lt c prev then ([prev], c :: cs)
    else
      let (run, rest) := ascRun lt c cs
      (prev :: run, rest)

/-- Descending-run collection of count_run: extend while strictly
a[k] < a[k-1]; the caller reverses the run. -/
def descRun (lt : α → α → Bool) (prev : α) : List α → (List α × List α)
  | [] => ([prev], [])
  | c :: cs =>
    if lt c prev then
      let (run, rest) := descRun lt c cs
      (prev :: run, rest)
    else ([prev], c :: cs)

/-- count_run of CPython: the initial maximal ascending run, or a strictly
descending run reversed in place. -/
def initialRun (lt : α → α → Bool) : List α → (List α × List α)
  | [] => ([], [])
  | [a] => ([a], [])
  | a :: b :: rest =>
    if lt b a then
      let (run, rest') := descRun lt b rest
      ((a :: run).reverse, rest')
    else
      let (run, rest') := ascRun lt b rest
      (a :: run, rest')

/-- CPython list.sort for lists shorter than 64 elements (the only regime the
repository meets): one count_run, then binary insertion of the remainder.
Python sorted(iterable) copies and runs this in-place sort. -/
def pyListSort (lt : α → α → Bool) (l : List α) : List α :=
  let (run, rest) := initialRun lt l
  binarySortLoop lt run rest

/-- set_name of Substitution applied in the naming loop of
Modifications.__init__: every point of the group at sorted position i gets the
name "sub" + i. -/
def nameGroups : Nat → List Substitution → List Substitution
  | _, [] => []
  | i, g :: gs =>
    ⟨g.points.map (fun p => { p with name := some ("sub" ++ toString i) })⟩ :: nameGroups (i + 1) gs

/-- Canonical modifications model: the named substitution groups in their final
order, the flattened point list, and the sorted attachment points. -/
structure Modifications where
  substitutions : List Substitution
  sub_points : List SubstitutionPoint
  attachments : List AttachmentPoint
deriving DecidableEq

/-- Embedding of Modifications.__init__/_load: process every C118425 partMoiety
node, sort the substitution groups with Python's sort over the (inconsistent)
group comparator, name them "sub0", "sub1", ... in that order, flatten the
points, and sort the attachment points. -/
def modificationsLoad (nodes : List ModNode) (chains : List Chain)
    (polymers : List Polymer) : Except Err Modifications :=
  match mapE (processModNode chains polymers) nodes with
  | .error e => .error e
  | .ok results =>
    let groups := results.filterMap Prod.fst
    let atts := (results.map Prod.snd).flatten
    let named := nameGroups 0 (pyListSort ltGroup groups)
    .ok ⟨named, (named.map Substitution.points).flatten, List.insertionSort leAtt atts⟩

-- ------------------------------------------------------------------
-- Template engine (src/identifier_string.py)
-- ------------------------------------------------------------------

/-- Transform of a template variable: function name plus parameters, as parsed
(the renderer of the source never applies them). -/
structure Transform where
  func : String
  params : List String
deriving DecidableEq

/-- Variable of a template: name and transform chain. -/
structure Variable where
  name : String
  transforms : List Transform
deriving DecidableEq

/-- Parsed template node: a literal text run (TextGeneratorElementString) or a
variable (TextGeneratorElementVariable). -/
inductive Node where
  | lit (cs : List Char)
  | var (v : Variable)
deriving DecidableEq

/-- Opening variable delimiter of parse. -/
def delimOpen : List Char := "\x7b\x7b ".data

/-- Closing variable delimiter of parse. -/
def delimClose : List Char := " \x7d\x7d".data

/-- match_name: consume characters up to the first occurrence of a bar or a
space (the suffix of the input plays the role of the offset). -/
def matchName : List Char → List Char × List Char
  | [] => ([], [])
  | c :: rest =>
    if c = '|' ∨ c = ' ' then ([], c :: rest)
    else
      let (nm, r) := matchName rest
      (c :: nm, r)

/-- match_parameter.  The source loops with three cases: a double quote closes
a quoted parameter, opens quoting while the text is still empty, and otherwise
matches no branch at all — the loop then repeats with an unchanged offset, so
Python spins forever; that stuck state is reported as nonTermination.  Bar,
space and comma end an unquoted parameter; everything else is appended. -/
def matchParameter (quoted : Bool) (text : List Char) : List Char → Except Err (String × List Char)
  | [] => .ok (⟨text⟩, [])
  | c :: rest =>
    if c = '"' then
      if quoted then .ok (⟨text⟩, rest)
      else if text.isEmpty then matchParameter true text rest
      else .error .nonTermination
    else if c = '|' ∨ c = ' ' ∨ c = ',' then
      if quoted then matchParameter quoted (text ++ [c]) rest
      else .ok (⟨text⟩, c :: rest)
    else matchParameter quoted (text ++ [c]) rest


theorem okEq {α : Type} {a b : α} (h : (Except.ok a : Except Err α) = .ok b) : a = b := by
  injection h

theorem okPairSnd {β γ : Type} {x : β × γ} {p : β} {r : γ}
    (h : (Except.ok x : Except Err (β × γ)) = .ok (p, r)) : x.2 = r := by
  injection h with h'
  rw [h']

theorem matchParameter_length_le :
    ∀ (cs : List Char) (quoted : Bool) (text : List Char) (p : String) (rest : List Char),
      matchParameter quoted text cs = .ok (p, rest) → rest.length ≤ cs.length := by
  intro cs
  induction cs with
  | nil =>
    intro quoted text p rest h
    simp only [matchParameter] at h
    have h2 := okPairSnd h
    rw [← h2]
  | cons c cs ih =>
    intro quoted text p rest h
    simp only [matchParameter] at h
    split at h
    · split at h
      · have h2 := okPairSnd h
        rw [← h2]
        simp
      · split at h
        · have := ih _ _ _ _ h
          simp
          omega
        · exact Except.noConfusion h
    · split at h
      · split at h
        · have := ih _ _ _ _ h
          simp
          omega
        · have h2 := okPairSnd h
          rw [← h2]
      · have := ih _ _ _ _ h
        simp
        omega

theorem matchName_length_le : ∀ cs : List Char, (matchName cs).2.length ≤ cs.length := by
  intro cs
  induction cs with
  | nil => simp [matchName]
  | cons c rest ih =>
    simp only [matchName]
    split
    · simp
    · simp
      omega

/-- After match_name the scan is either at end of input or at a bar or a
space: exactly the characters that stop the name. -/
theorem matchName_stops :
    ∀ cs : List Char, (matchName cs).2 = [] ∨
      ∃ c rest, (matchName cs).2 = c :: rest ∧ (c = '|' ∨ c = ' ') := by
  intro cs
  induction cs with
  | nil => left; simp [matchName]
  | cons c rest ih =>
    simp only [matchName]
    by_cases h : c = '|' ∨ c = ' '
    · right; exact ⟨c, rest, by simp [h], h⟩
    · simpa [h] using ih

/-- Comma loop of match_transformation: while the scan sits on a comma, parse
another parameter (indexing past the end raises IndexError).  Every iteration
consumes at least the comma, so the input length bounds the iteration count;
the loop recurses on that bound and the caller passes it exactly, which makes
the exhausted-bound branch unreachable (commaLoopGo_err below). -/
def commaLoopGo : Nat → List String → List Char → Except Err (List String × List Char)
  | 0, _, _ => .error .nonTermination
  | fuel + 1, ps, cs =>
    match cs with
    | [] => .error .indexError
    | c :: rest =>
      if c = ',' then
        match matchParameter false [] rest with
        | .error e => .error e
        | .ok (p, cs2) => commaLoopGo fuel (ps ++ [p]) cs2
      else .ok (ps, c :: rest)

/-- Comma loop entered with its exact step bound. -/
def commaLoop (ps : List String) (cs : List Char) : Except Err (List String × List Char) :=
  commaLoopGo (cs.length + 1) ps cs

theorem commaLoopGo_length_le :
    ∀ (fuel : Nat) (cs : List Char) (ps qs : List String) (rest : List Char),
      commaLoopGo fuel ps cs = .ok (qs, rest) → rest.length ≤ cs.length := by
  intro fuel
  induction fuel with
  | zero =>
    intro cs ps qs rest h
    exact Except.noConfusion h
  | succ fuel ih =>
    intro cs ps qs rest h
    match cs with
    | [] =>
      simp only [commaLoopGo] at h
      exact Except.noConfusion h
    | c :: rest' =>
      simp only [commaLoopGo] at h
      split at h
      · split at h
        · exact Except.noConfusion h
        · rename_i p cs2 hm
          have h1 := matchParameter_length_le rest' false [] p cs2 hm
          have h2 := ih cs2 _ _ _ h
          simp
          omega
      · have h2 := okPairSnd h
        have h3 := congrArg List.length h2
        simp at h3
        simp
        omega

/-- match_transformation: a name, then — only when the scan sits on a colon,
which match_name can never leave it on — parameters.  At end of input the
colon test itself indexes past the buffer: IndexError. -/
def matchTransformation (cs : List Char) : Except Err (Transform × List Char) :=
  match (matchName cs).2 with
  | [] => .error .indexError
  | c :: rest =>
    if c = ':' then
      match matchParameter false [] (c :: rest) with
      | .error e => .error e
      | .ok (p, cs2) =>
        match commaLoop [p] cs2 with
        | .error e => .error e
        | .ok (ps, cs3) => .ok (⟨⟨(matchName cs).1⟩, ps⟩, cs3)
    else .ok (⟨⟨(matchName cs).1⟩, []⟩, c :: rest)

theorem matchTransformation_length_le :
    ∀ (cs : List Char) (t : Transform) (rest : List Char),
      matchTransformation cs = .ok (t, rest) → rest.length ≤ cs.length := by
  intro cs t rest h
  have hn := matchName_length_le cs
  have hs := matchName_stops cs
  unfold matchTransformation at h
  split at h
  · exact Except.noConfusion h
  · rename_i c rest' heq
    split at h
    · rename_i hc
      rcases hs with hs | ⟨c', r', hcr, hc'⟩
      · rw [heq] at hs
        exact List.noConfusion hs
      · rw [heq] at hcr
        have h1 : c = c' := by
          have := congrArg List.head? hcr
          simpa using this
        subst h1
        rcases hc' with hc' | hc' <;> rw [hc'] at hc <;> exact absurd hc (by decide)
    · have h2 := okPairSnd h
      have h3 := congrArg List.length h2
      rw [heq] at hn
      simp at h3 hn
      omega

/-- Transform loop of match_variable: while the scan sits on a bar, parse a
transformation (indexing past the end raises IndexError).  Every iteration
consumes at least the bar, so the input length bounds the iteration count;
the loop recurses on that bound and the caller passes it exactly. -/
def trLoopGo : Nat → List Transform → List Char → Except Err (List Transform × List Char)
  | 0, _, _ => .error .nonTermination
  | fuel + 1, ts, cs =>
    match cs with
    | [] => .error .indexError
    | c :: rest =>
      if c = '|' then
        match matchTransformation rest with
        | .error e => .error e
        | .ok (t, cs2) => trLoopGo fuel (ts ++ [t]) cs2
      else .ok (ts, c :: rest)

/-- Transform loop entered with its exact step bound. -/
def trLoop (ts : List Transform) (cs : List Char) : Except Err (List Transform × List Char) :=
  trLoopGo (cs.length + 1) ts cs

theorem trLoopGo_length_le :
    ∀ (fuel : Nat) (cs : List Char) (ts us : List Transform) (rest : List Char),
      trLoopGo fuel ts cs = .ok (us, rest) → rest.length ≤ cs.length := by
  intro fuel
  induction fuel with
  | zero =>
    intro cs ts us rest h
    exact Except.noConfusion h
  | succ fuel ih =>
    intro cs ts us rest h
    match cs with
    | [] =>
      simp only [trLoopGo] at h
      exact Except.noConfusion h
    | c :: rest' =>
      simp only [trLoopGo] at h
      split at h
      · split at h
        · exact Except.noConfusion h
        · rename_i t cs2 hm
          have h1 := matchTransformation_length_le rest' t cs2 hm
          have h2 := ih cs2 _ _ _ h
          simp
          omega
      · have h2 := okPairSnd h
        have h3 := congrArg List.length h2
        simp at h3
        simp
        omega

/-- match_variable: a name followed by the transform loop. -/
def matchVariable (cs : List Char) : Except Err (Variable × List Char) :=
  match trLoop [] (matchName cs).2 with
  | .error e => .error e
  | .ok (ts, rest) => .ok (⟨⟨(matchName cs).1⟩, ts⟩, rest)

theorem matchVariable_length_le :
    ∀ (cs : List Char) (v : Variable) (rest : List Char),
      matchVariable cs = .ok (v, rest) → rest.length ≤ cs.length := by
  intro cs v rest h
  unfold matchVariable at h
  split at h
  · exact Except.noConfusion h
  · rename_i ts rest' htl
    have h1 := trLoopGo_length_le _ _ _ _ _ htl
    have h2 := matchName_length_le cs
    have h3 := okPairSnd h
    have h4 := congrArg List.length h3
    simp at h4
    omega

/-- match_pattern: the pattern must occur verbatim at the scan position; on
failure the source executes raise ParserError(), but no ParserError class is
defined anywhere, so Python actually raises NameError for the undefined name
(and no character offset is attached to anything). -/
def matchPattern (pat : List Char) (cs : List Char) : Except Err (List Char) :=
  if pat.isPrefixOf cs then .ok (cs.drop pat.length) else .error (.nameError "ParserError")

/-- parse_variable: opening delimiter, variable expression, closing
delimiter. -/
def parseVariable (cs : List Char) : Except Err (Variable × List Char) :=
  match matchPattern delimOpen cs with
  | .error e => .error e
  | .ok cs1 =>
    match matchVariable cs1 with
    | .error e => .error e
    | .ok (v, cs2) =>
      match matchPattern delimClose cs2 with
      | .error e => .error e
      | .ok cs3 => .ok (v, cs3)

theorem matchPattern_length (pat cs rest : List Char) :
    matchPattern pat cs = .ok rest → rest.length + pat.length = cs.length := by
  intro h
  unfold matchPattern at h
  split at h
  · rename_i hp
    have hle : pat.length ≤ cs.length := ((List.isPrefixOf_iff_prefix).1 hp).length_le
    have := okEq h
    rw [← this]
    simp
    omega
  · exact Except.noConfusion h

theorem parseVariable_length (cs : List Char) :
    ∀ v rest, parseVariable cs = .ok (v, rest) → rest.length + 6 ≤ cs.length := by
  intro v rest h
  unfold parseVariable at h
  split at h
  · exact Except.noConfusion h
  · rename_i cs1 h1
    split at h
    · exact Except.noConfusion h
    · rename_i v' cs2 h2
      split at h
      · exact Except.noConfusion h
      · rename_i cs3 h3
        have e1 := matchPattern_length delimOpen cs cs1 h1
        have e2 := matchVariable_length_le cs1 v' cs2 h2
        have e3 := matchPattern_length delimClose cs2 cs3 h3
        have h4 := okPairSnd h
        have h5 := congrArg List.length h4
        simp at h5
        simp [delimOpen, delimClose] at e1 e3
        omega

/-- str.find of the three-character opening delimiter: index of its first
occurrence, None standing for -1. -/
def findDelim : List Char → Option Nat
  | [] => none
  | c :: cs =>
    if delimOpen.isPrefixOf (c :: cs) then some 0
    else (findDelim cs).map (· + 1)

/-- Main loop of parse: scan for the opening delimiter; everything before it is
a literal node (appended even when empty, as the source does); then a variable;
then continue after it.  Without a delimiter the remaining text is one final
literal node — unless the position already reached the end, in which case the
loop body never runs. -/
def parseLoopGo : Nat → List Char → Except Err (List Node)
  | 0, _ => .error .nonTermination
  | fuel + 1, cs =>
    match cs with
    | [] => .ok []
    | c :: rest =>
      match findDelim (c :: rest) with
      | none => .ok [.lit (c :: rest)]
      | some i =>
        match parseVariable ((c :: rest).drop i) with
        | .error e => .error e
        | .ok (v, after) =>
          match parseLoopGo fuel after with
          | .error e => .error e
          | .ok ns => .ok (.lit ((c :: rest).take i) :: .var v :: ns)

/-- parse of identifier_string.py over the characters of the template.  Every
loop iteration consumes a whole variable reference (at least six characters,
parseVariable_length), so the input length bounds the iteration count and the
loop is entered with that exact bound; the exhausted-bound branch is
unreachable (parse_err below). -/
def parse (s : String) : Except Err (List Node) := parseLoopGo (s.data.length + 1) s.data

-- ------------------------------------------------------------------
-- Renderer, StringTemplate and visitor (src/identifier_string.py)
-- ------------------------------------------------------------------

/-- Leaf value held in a StringTemplate instance context: the attribute values
the pipeline stores are strings or Python None (an absent chemical-structure
value). -/
inductive LeafValue where
  | lstr (s : String)
  | lnone
deriving DecidableEq

/-- StringTemplate instance: its template string and its _context dict of
loaded attribute values. -/
structure TemplObj where
  tstr : String
  lctx : List (String × LeafValue)
deriving DecidableEq

/-- Value bound in a rendering context: a string, Python None, a list, or a
StringTemplate instance (the only objects the pipeline's visitor stores). -/
inductive Value where
  | vstr (s : String)
  | vnone
  | vlist (items : List Value)
  | vtempl (t : TemplObj)

mutual

def valueDecEq : (a b : Value) → Decidable (a = b)
  | .vstr s, .vstr t =>
    match decEq s t with
    | .isTrue h => .isTrue (by rw [h])
    | .isFalse h => .isFalse (by intro hc; cases hc; exact h rfl)
  | .vnone, .vnone => .isTrue rfl
  | .vlist xs, .vlist ys =>
    match valueListDecEq xs ys with
    | .isTrue h => .isTrue (by rw [h])
    | .isFalse h => .isFalse (by intro hc; cases hc; exact h rfl)
  | .vtempl s, .vtempl t =>
    match decEq s t with
    | .isTrue h => .isTrue (by rw [h])
    | .isFalse h => .isFalse (by intro hc; cases hc; exact h rfl)
  | .vstr _, .vnone => .isFalse (by intro hc; cases hc)
  | .vstr _, .vlist _ => .isFalse (by intro hc; cases hc)
  | .vstr _, .vtempl _ => .isFalse (by intro hc; cases hc)
  | .vnone, .vstr _ => .isFalse (by intro hc; cases hc)
  | .vnone, .vlist _ => .isFalse (by intro hc; cases hc)
  | .vnone, .vtempl _ => .isFalse (by intro hc; cases hc)
  | .vlist _, .vstr _ => .isFalse (by intro hc; cases hc)
  | .vlist _, .vnone => .isFalse (by intro hc; cases hc)
  | .vlist _, .vtempl _ => .isFalse (by intro hc; cases hc)
  | .vtempl _, .vstr _ => .isFalse (by intro hc; cases hc)
  | .vtempl _, .vnone => .isFalse (by intro hc; cases hc)
  | .vtempl _, .vlist _ => .isFalse (by intro hc; cases hc)

def valueListDecEq : (xs ys : List Value) → Decidable (xs = ys)
  | [], [] => .isTrue rfl
  | [], _ :: _ => .isFalse (by intro hc; cases hc)
  | _ :: _, [] => .isFalse (by intro hc; cases hc)
  | x :: xs, y :: ys =>
    match valueDecEq x y with
    | .isFalse h => .isFalse (by intro hc; cases hc; exact h rfl)
    | .isTrue h =>
      match valueListDecEq xs ys with
      | .isTrue h2 => .isTrue (by rw [h, h2])
      | .isFalse h2 => .isFalse (by intro hc; cases hc; exact h2 rfl)

end

instance : DecidableEq Value := valueDecEq

/-- Literal placeholder emitted for an unresolved variable:
the text of the variable reference itself. -/
def placeholder (name : String) : String :=
  "\x7b\x7b " ++ name ++ " \x7d\x7d"

/-- StringTemplate.load of identifier_string.py, embedded loop state and all.
Each declared attribute name is read with getattr inside try/except
AttributeError/finally; the finally clause runs the context assignment
unconditionally, so an attribute the entity lacks is bound to the previous
loop iteration's value, and when the very first attribute is missing the
assignment reads the never-assigned local value: UnboundLocalError. -/
def loadLoop (target : List (String × LeafValue)) (carried : Option LeafValue)
    (ctx : List (String × LeafValue)) :
    List String → Except Err (List (String × LeafValue))
  | [] => .ok ctx
  | name :: rest =>
    match dictLookup target name with
    | some v => loadLoop target (some v) (dictSet ctx name v) rest
    | none =>
      match carried with
      | some v => loadLoop target (some v) (dictSet ctx name v) rest
      | none => .error (.unboundLocal "value")

/-- StringTemplate.load on a fresh instance (the _context dict starts empty and
no local value exists yet). -/
def loadCtx (attrs : List String) (target : List (String × LeafValue)) :
    Except Err (List (String × LeafValue)) :=
  loadLoop target none [] attrs

/-- Rendering of one parsed node against a StringTemplate instance context
(TextGenerator.to_string as invoked from StringTemplate.to_string).  A literal
emits its text; a variable looks its name up: a miss emits the placeholder, a
string value is emitted verbatim, and a None value reaches the final
item.to_string() branch, where NoneType has no to_string: AttributeError. -/
def renderLeafNode (lctx : List (String × LeafValue)) : Node → Except Err String
  | .lit cs => .ok ⟨cs⟩
  | .var v =>
    match dictLookup lctx v.name with
    | none => .ok (placeholder v.name)
    | some (.lstr s) => .ok s
    | some .lnone => .error (.attributeError "to_string")

/-- StringTemplate.to_string: parse the instance's template string and render
every node against its _context, concatenating the pieces. -/
def renderTemplObj (t : TemplObj) : Except Err String :=
  match parse t.tstr with
  | .error e => .error e
  | .ok ns =>
    match mapE (renderLeafNode t.lctx) ns with
    | .error e => .error e
    | .ok parts => .ok (String.join parts)

/-- List-element rendering inside TextGeneratorElementVariable.to_string: the
comprehension calls x.to_string() on each element; only StringTemplate
instances have one — a plain string, None or a nested list raises
AttributeError. -/
def renderElem : Value → Except Err String
  | .vtempl t => renderTemplObj t
  | _ => .error (.attributeError "to_string")

/-- Value dispatch of TextGeneratorElementVariable.to_string after a
successful context lookup: strings verbatim; lists render every element and
join with a semicolon — the parsed transform chain (sort, join and the like)
is never consulted; anything else gets item.to_string(). -/
def renderValue : Value → Except Err String
  | .vstr s => .ok s
  | .vlist items =>
    match mapE renderElem items with
    | .error e => .error e
    | .ok parts => .ok (String.intercalate ";" parts)
  | .vnone => .error (.attributeError "to_string")
  | .vtempl t => renderTemplObj t

/-- Rendering of one parsed node against a top-level context. -/
def renderNode (ctx : List (String × Value)) : Node → Except Err String
  | .lit cs => .ok ⟨cs⟩
  | .var v =>
    match dictLookup ctx v.name with
    | none => .ok (placeholder v.name)
    | some item => renderValue item

/-- TextGenerator.to_string against a context: parse once, render every node,
join the pieces. -/
def renderTemplate (s : String) (ctx : List (String × Value)) : Except Err String :=
  match parse s with
  | .error e => .error e
  | .ok ns =>
    match mapE (renderNode ctx) ns with
    | .error e => .error e
    | .ok parts => .ok (String.join parts)

-- ------------------------------------------------------------------
-- Rules configuration and the identifier pipeline
-- ------------------------------------------------------------------

/-- Template string of Rules["protein_identifier"]. -/
def ruleProteinStr : String :=
  "/chains=\x7b\x7b chains|sort|join:\";\" \x7d\x7d/poly=\x7b\x7b polymers|sort|join:\";\" \x7d\x7d/mods=\x7b\x7b modifications|sort|join:\";\" \x7d\x7d"

/-- Template string of Rules["chain"]. -/
def ruleChainStr : String := "\x7b\x7b name \x7d\x7d:\x7b\x7b value \x7d\x7d"

/-- Attribute list of Rules["chain"]. -/
def ruleChainAttrs : List String := ["name", "value"]

/-- Template string of Rules["polymer"]. -/
def rulePolymerStr : String :=
  "\x7b\x7b name \x7d\x7d:\x7b\x7b value \x7d\x7d:\x7b\x7b connection_points \x7d\x7d"

/-- Attribute list of Rules["polymer"]. -/
def rulePolymerAttrs : List String := ["name", "value", "connection_points"]

/-- Attributes of a Chain object as getattr sees them. -/
def chainAttrs (c : Chain) : List (String × LeafValue) :=
  [("local_id", .lstr c.local_id), ("value", .lstr c.value), ("name", .lstr c.name)]

/-- Polymer.connection_points property: the comma-joined rendering of the
connection points. -/
def connectionPointsStr (p : Polymer) : String :=
  String.intercalate "," (p.conn_points.map connPointToString)

/-- Attributes of a Polymer object as getattr sees them (conn_points and
quantity hold objects no template requests and are therefore not
representable as leaf values; value may be Python None). -/
def polymerAttrs (p : Polymer) : List (String × LeafValue) :=
  [("code", .lstr p.code),
   ("value", match p.value with | some v => .lstr v | none => .lnone),
   ("connection_points", .lstr (connectionPointsStr p)),
   ("name", .lstr p.name)]

/-- IdentifierStringTemplate.visit_chains body for one chain: instantiate the
chain template and load the chain's declared attributes. -/
def instantiateChain (c : Chain) : Except Err TemplObj :=
  match loadCtx ruleChainAttrs (chainAttrs c) with
  | .error e => .error e
  | .ok ctx => .ok ⟨ruleChainStr, ctx⟩

/-- IdentifierStringTemplate.visit_polymers body for one polymer. -/
def instantiatePolymer (p : Polymer) : Except Err TemplObj :=
  match loadCtx rulePolymerAttrs (polymerAttrs p) with
  | .error e => .error e
  | .ok ctx => .ok ⟨rulePolymerStr, ctx⟩

/-- Whole-document model and pipeline input: the sibling element lists the
extractors iterate over (chain moieties, other-substance subjects, C118425
modification partMoiety nodes), each node carrying its query results. -/
structure Doc where
  chainNodes : List ChainNode
  subjects : List SubjectNode
  modNodes : List ModNode
deriving DecidableEq

/-- Full pipeline of __main__: build the protein model (Chains, then Polymers,
then Modifications over their lookups), have the IdentifierStringTemplate
visitor collect chains and polymers into the context (the model visits
substitutions and attachments too, but the visitor's dispatch recognises
neither name and drops them, and nothing ever binds the modifications key),
then render the top-level protein_identifier template. -/
def pipeline (d : Doc) : Except Err String :=
  match chainsLoad d.chainNodes with
  | .error e => .error e
  | .ok chains =>
    match polymersLoad d.subjects with
    | .error e => .error e
    | .ok polymers =>
      match modificationsLoad d.modNodes chains polymers with
      | .error e => .error e
      | .ok _mods =>
        match mapE instantiateChain chains with
        | .error e => .error e
        | .ok chainTs =>
          match mapE instantiatePolymer polymers with
          | .error e => .error e
          | .ok polyTs =>
            renderTemplate ruleProteinStr
              [("chains", .vlist (chainTs.map .vtempl)),
               ("polymers", .vlist (polyTs.map .vtempl))]

-- ------------------------------------------------------------------
-- Order theory for the sort keys
-- ------------------------------------------------------------------

theorem lexLtB_asymm : ∀ a b : List Char, lexLtB a b = true → lexLtB b a = false := by
  intro a
  induction a with
  | nil =>
    intro b h
    cases b with
    | nil => simp [lexLtB] at h
    | cons y ys => simp [lexLtB]
  | cons x xs ih =>
    intro b h
    cases b with
    | nil => simp [lexLtB] at h
    | cons y ys =>
      simp only [lexLtB] at h ⊢
      by_cases h1 : x.toNat < y.toNat
      · have h2 : ¬ y.toNat < x.toNat := by omega
        simp [h1, h2]
      · by_cases h2 : y.toNat < x.toNat
        · simp [h1, h2] at h
        · simp [h1, h2] at h ⊢
          exact ih ys h

theorem lexLtB_conn : ∀ a b : List Char, lexLtB a b = false → lexLtB b a = false → a = b := by
  intro a
  induction a with
  | nil =>
    intro b h1 h2
    cases b with
    | nil => rfl
    | cons y ys => simp [lexLtB] at h1
  | cons x xs ih =>
    intro b h1 h2
    cases b with
    | nil => simp [lexLtB] at h2
    | cons y ys =>
      simp only [lexLtB] at h1 h2
      by_cases hx : x.toNat < y.toNat
      · simp [hx] at h1
      · by_cases hy : y.toNat < x.toNat
        · simp [hy, hx] at h2
        · simp [hx, hy] at h1 h2
          have hxy : x = y := by
            have : x.toNat = y.toNat := by omega
            exact Char.ext (UInt32.eq_of_val_eq (Fin.ext this))
          rw [hxy, ih ys h1 h2]

theorem lexLtB_trans : ∀ a b c : List Char,
    lexLtB a b = true → lexLtB b c = true → lexLtB a c = true := by
  intro a
  induction a with
  | nil =>
    intro b c h1 h2
    cases b with
    | nil => simp [lexLtB] at h1
    | cons y ys =>
      cases c with
      | nil => simp [lexLtB] at h2
      | cons z zs => simp [lexLtB]
  | cons x xs ih =>
    intro b c h1 h2
    cases b with
    | nil => simp [lexLtB] at h1
    | cons y ys =>
      cases c with
      | nil => simp [lexLtB] at h2
      | cons z zs =>
        simp only [lexLtB] at h1 h2 ⊢
        by_cases hxy : x.toNat < y.toNat
        · by_cases hyz : y.toNat < z.toNat
          · have : x.toNat < z.toNat := by omega
            simp [this]
          · by_cases hzy : z.toNat < y.toNat
            · simp [hyz, hzy] at h2
            · have : x.toNat < z.toNat := by omega
              simp [this]
        · by_cases hyx : y.toNat < x.toNat
          · simp [hxy, hyx] at h1
          · by_cases hyz : y.toNat < z.toNat
            · have : x.toNat < z.toNat := by omega
              simp [this]
            · by_cases hzy : z.toNat < y.toNat
              · simp [hyz, hzy] at h2
              · have hxz : ¬ x.toNat < z.toNat := by omega
                have hzx : ¬ z.toNat < x.toNat := by omega
                simp [hxy, hyx] at h1
                simp [hyz, hzy] at h2
                simp [hxz, hzx]
                exact ih ys zs h1 h2

theorem strLt_asymm {a b : String} (h : strLt a b = true) : strLt b a = false :=
  lexLtB_asymm a.data b.data h

theorem strLt_conn {a b : String} (h1 : strLt a b = false) (h2 : strLt b a = false) : a = b :=
  String.ext (lexLtB_conn a.data b.data h1 h2)

theorem strLt_trans {a b c : String} (h1 : strLt a b = true) (h2 : strLt b c = true) :
    strLt a c = true :=
  lexLtB_trans a.data b.data c.data h1 h2

theorem strLt_irrefl (a : String) : strLt a a = false := by
  cases h : strLt a a
  · rfl
  · exact absurd (lexLtB_asymm a.data a.data h) (by simp [strLt] at h; simp [strLt, h])

theorem strLe_total (a b : String) : strLe a b = true ∨ strLe b a = true := by
  unfold strLe
  cases hab : strLt a b
  · cases hba : strLt b a
    · left
      have := strLt_conn hab hba
      simp [this]
    · right
      simp
  · left
    simp

theorem strLe_of_eq {a b : String} (h : a = b) : strLe a b = true := by
  subst h
  simp [strLe]

theorem strLe_antisymm {a b : String} (h1 : strLe a b = true) (h2 : strLe b a = true) : a = b := by
  unfold strLe at h1 h2
  cases hab : strLt a b
  · rw [hab] at h1
    simpa using h1
  · have hba := strLt_asymm hab
    rw [hba] at h2
    have : b = a := by simpa using h2
    exact this.symm

theorem strLe_trans {a b c : String} (h1 : strLe a b = true) (h2 : strLe b c = true) :
    strLe a c = true := by
  unfold strLe at h1 h2 ⊢
  simp at h1 h2 ⊢
  rcases h1 with h1 | h1
  · rcases h2 with h2 | h2
    · exact Or.inl (strLt_trans h1 h2)
    · subst h2; exact Or.inl h1
  · subst h1
    exact h2

instance : IsTotal RawChain leChainKey := by
  constructor
  intro a b
  unfold leChainKey
  cases hab : strLt a.value b.value
  · cases hba : strLt b.value a.value
    · have hv := strLt_conn hab hba
      rcases strLe_total a.local_id b.local_id with h | h
      · left; right; exact ⟨hv, h⟩
      · right; right; exact ⟨hv.symm, h⟩
    · right; left; rfl
  · left; left; rfl

instance : IsTrans RawChain leChainKey := by
  constructor
  intro a b c h1 h2
  unfold leChainKey at h1 h2 ⊢
  rcases h1 with h1 | ⟨h1v, h1l⟩
  · rcases h2 with h2 | ⟨h2v, h2l⟩
    · exact Or.inl (strLt_trans h1 h2)
    · rw [h2v] at h1; exact Or.inl h1
  · rcases h2 with h2 | ⟨h2v, h2l⟩
    · rw [h1v]; exact Or.inl h2
    · exact Or.inr ⟨h1v.trans h2v, strLe_trans h1l h2l⟩

theorem leChainKey_antisymm {a b : RawChain} (h1 : leChainKey a b) (h2 : leChainKey b a) :
    a = b := by
  unfold leChainKey at h1 h2
  rcases h1 with h1 | ⟨h1v, h1l⟩
  · rcases h2 with h2 | ⟨h2v, h2l⟩
    · exact absurd h1 (by simp [strLt_asymm h2])
    · rw [h2v] at h1
      exact absurd h1 (by simp [strLt_irrefl])
  · rcases h2 with h2 | ⟨h2v, h2l⟩
    · rw [h1v] at h2
      exact absurd h2 (by simp [strLt_irrefl])
    · cases a
      cases b
      simp_all
      exact strLe_antisymm h1l h2l

theorem optValLt_asymm {a b : Option String} (h : optValLt a b = true) : optValLt b a = false := by
  cases a <;> cases b <;> simp [optValLt] at h ⊢
  exact strLt_asymm h

theorem optValLt_conn {a b : Option String} (h1 : optValLt a b = false)
    (h2 : optValLt b a = false) : a = b := by
  cases a <;> cases b <;> simp [optValLt] at h1 h2 ⊢
  exact strLt_conn h1 h2

theorem optValLt_trans {a b c : Option String} (h1 : optValLt a b = true)
    (h2 : optValLt b c = true) : optValLt a c = true := by
  cases a <;> cases b <;> cases c <;> simp [optValLt] at h1 h2 ⊢
  exact strLt_trans h1 h2

theorem optValLt_irrefl (a : Option String) : optValLt a a = false := by
  cases a <;> simp [optValLt]
  exact strLt_irrefl _

instance : IsTotal RawPolymer lePolyKey := by
  constructor
  intro a b
  unfold lePolyKey
  cases hab : optValLt a.value b.value
  · cases hba : optValLt b.value a.value
    · have hv := optValLt_conn hab hba
      rcases strLe_total a.code b.code with h | h
      · left; right; exact ⟨hv, h⟩
      · right; right; exact ⟨hv.symm, h⟩
    · right; left; rfl
  · left; left; rfl

instance : IsTrans RawPolymer lePolyKey := by
  constructor
  intro a b c h1 h2
  unfold lePolyKey at h1 h2 ⊢
  rcases h1 with h1 | ⟨h1v, h1l⟩
  · rcases h2 with h2 | ⟨h2v, h2l⟩
    · exact Or.inl (optValLt_trans h1 h2)
    · rw [h2v] at h1; exact Or.inl h1
  · rcases h2 with h2 | ⟨h2v, h2l⟩
    · rw [h1v]; exact Or.inl h2
    · exact Or.inr ⟨h1v.trans h2v, strLe_trans h1l h2l⟩

/-- Key antisymmetry for polymers holds only up to the sort key: records with
equal (value, code) may still differ in connection points or quantity. -/
theorem lePolyKey_antisymm_key {a b : RawPolymer} (h1 : lePolyKey a b) (h2 : lePolyKey b a) :
    a.value = b.value ∧ a.code = b.code := by
  unfold lePolyKey at h1 h2
  rcases h1 with h1 | ⟨h1v, h1l⟩
  · rcases h2 with h2 | ⟨h2v, h2l⟩
    · exact absurd h1 (by simp [optValLt_asymm h2])
    · rw [h2v] at h1
      exact absurd h1 (by simp [optValLt_irrefl])
  · rcases h2 with h2 | ⟨h2v, h2l⟩
    · rw [h1v] at h2
      exact absurd h2 (by simp [optValLt_irrefl])
    · exact ⟨h1v, strLe_antisymm h1l h2l⟩

-- ------------------------------------------------------------------
-- Permutation lemmas
-- ------------------------------------------------------------------

/-- Two sorted lists that are permutations of each other are equal, provided
the order is antisymmetric on the members involved. -/
theorem sorted_perm_eq {α : Type} {r : α → α → Prop} :
    ∀ {l₁ l₂ : List α}, l₁.Perm l₂ → l₁.Pairwise r → l₂.Pairwise r →
      (∀ a ∈ l₁, ∀ b ∈ l₁, r a b → r b a → a = b) → l₁ = l₂ := by
  intro l₁
  induction l₁ with
  | nil =>
    intro l₂ hp _ _ _
    exact (hp.nil_eq).symm ▸ rfl
  | cons a t₁ ih =>
    intro l₂ hp hs₁ hs₂ hanti
    cases l₂ with
    | nil => exact absurd hp.symm.nil_eq (by simp)
    | cons b t₂ =>
      have hab : a = b := by
        by_cases heq : a = b
        · exact heq
        · have ha2 : a ∈ b :: t₂ := hp.mem_iff.1 (by simp)
          have hb1 : b ∈ a :: t₁ := hp.mem_iff.2 (by simp)
          have ha2' : a ∈ t₂ := by
            rcases ha2 with _ | h
            · exact absurd rfl heq
            · assumption
          have hb1' : b ∈ t₁ := by
            rcases hb1 with _ | h
            · exact absurd rfl (fun hh => heq hh.symm)
            · assumption
          have hr1 : r a b := (List.pairwise_cons.1 hs₁).1 b hb1'
          have hr2 : r b a := (List.pairwise_cons.1 hs₂).1 a ha2'
          exact hanti a (by simp) b (by simp [hb1']) hr1 hr2
      subst hab
      have hpt := hp.cons_inv
      have := ih hpt (List.pairwise_cons.1 hs₁).2 (List.pairwise_cons.1 hs₂).2
        (fun x hx y hy hxy hyx => hanti x (by simp [hx]) y (by simp [hy]) hxy hyx)
      rw [this]

/-- All elements succeed when an effectful map succeeds. -/
theorem mapE_ok_mem {α β : Type} {f : α → Except Err β} :
    ∀ {l : List α} {ys : List β}, mapE f l = .ok ys → ∀ x ∈ l, ∃ y, f x = .ok y := by
  intro l
  induction l with
  | nil => intro ys h x hx; cases hx
  | cons a t ih =>
    intro ys h x hx
    simp only [mapE] at h
    split at h
    · exact Except.noConfusion h
    · rename_i y hy
      split at h
      · exact Except.noConfusion h
      · rename_i ys' hys
        rcases hx with _ | hx
        · exact ⟨y, hy⟩
        · exact ih hys x (by assumption)

/-- A permutation of the input list keeps an effectful map succeeding and
permutes its output. -/
theorem mapE_perm {α β : Type} {f : α → Except Err β} :
    ∀ {l l' : List α}, l.Perm l' → ∀ {ys : List β}, mapE f l = .ok ys →
      ∃ ys', mapE f l' = .ok ys' ∧ ys.Perm ys' := by
  intro l l' hp
  induction hp with
  | nil =>
    intro ys h
    exact ⟨ys, h, List.Perm.refl ys⟩
  | cons a hpt ih =>
    intro ys h
    simp only [mapE] at h ⊢
    split at h
    · exact Except.noConfusion h
    · rename_i y hy
      split at h
      · exact Except.noConfusion h
      · rename_i ys' hys
        rcases ih hys with ⟨zs, hzs, hperm⟩
        rw [hzs]
        have := okEq h
        exact ⟨y :: zs, rfl, by rw [← this]; exact hperm.cons y⟩
  | swap a b t =>
    intro ys h
    simp only [mapE] at h ⊢
    split at h
    · exact Except.noConfusion h
    · rename_i yb hyb
      split at h
      · exact Except.noConfusion h
      · rename_i rest hrest
        split at hrest
        · exact Except.noConfusion hrest
        · rename_i ya hya
          split at hrest
          · exact Except.noConfusion hrest
          · rename_i ys' hys
            have h1 := okEq hrest
            have h2 := okEq h
            refine ⟨ya :: yb :: ys', rfl, ?_⟩
            rw [← h2, ← h1]
            exact List.Perm.swap ya yb ys'
  | trans hp1 hp2 ih1 ih2 =>
    intro ys h
    rcases ih1 h with ⟨zs, hzs, hperm1⟩
    rcases ih2 hzs with ⟨ws, hws, hperm2⟩
    exact ⟨ws, hws, hperm1.trans hperm2⟩

/-- Permutations preserve List.any. -/
theorem perm_any {α : Type} {p : α → Bool} {l l' : List α} (h : l.Perm l') :
    l.any p = l'.any p := by
  cases h1 : l.any p
  · cases h2 : l'.any p
    · rfl
    · rw [List.any_eq_true] at h2
      rcases h2 with ⟨x, hx, hpx⟩
      rw [List.any_eq_false] at h1
      exact absurd hpx (by simpa using h1 x (h.mem_iff.2 hx))
  · cases h2 : l'.any p
    · rw [List.any_eq_true] at h1
      rcases h1 with ⟨x, hx, hpx⟩
      rw [List.any_eq_false] at h2
      exact absurd hpx (by simpa using h2 x (h.mem_iff.1 hx))
    · rfl

-- ------------------------------------------------------------------
-- Order independence of the extraction stages
-- ------------------------------------------------------------------

theorem chainsLoad_perm {nodes nodes' : List ChainNode} (hp : nodes.Perm nodes')
    {cs : List Chain} (h : chainsLoad nodes = .ok cs) : chainsLoad nodes' = .ok cs := by
  cases hm : mapE readChainNode nodes with
  | error e =>
    have hbad : chainsLoad nodes = .error e := by
      unfold chainsLoad
      rw [hm]
    rw [hbad] at h
    exact Except.noConfusion h
  | ok raw =>
    have hval : chainsLoad nodes = .ok (nameChains 0 (List.insertionSort leChainKey raw)) := by
      unfold chainsLoad
      rw [hm]
    rw [hval] at h
    rcases mapE_perm hp hm with ⟨raw', hraw', hperm⟩
    have hval' : chainsLoad nodes' =
        .ok (nameChains 0 (List.insertionSort leChainKey raw')) := by
      unfold chainsLoad
      rw [hraw']
    have hsorteq : List.insertionSort leChainKey raw = List.insertionSort leChainKey raw' := by
      apply sorted_perm_eq
      · exact ((List.perm_insertionSort _ raw).trans hperm).trans
          (List.perm_insertionSort _ raw').symm
      · exact List.sorted_insertionSort _ raw
      · exact List.sorted_insertionSort _ raw'
      · intro a _ b _ hab hba
        exact leChainKey_antisymm hab hba
    rw [hval', ← hsorteq]
    exact h

/-- Decidable check that no two extracted polymer records share the (value,
code) sort key: the hypothesis under which the polymer stage is
document-order independent. -/
def polyKeyInjB (subjects : List SubjectNode) : Bool :=
  match mapE readSubjectNode subjects with
  | .error _ => true
  | .ok raw =>
    raw.all (fun a => raw.all (fun b =>
      decide (a.value = b.value → a.code = b.code → a = b)))

theorem polyKeyInjB_spec {subjects : List SubjectNode} {raw : List RawPolymer}
    (hinj : polyKeyInjB subjects = true) (hm : mapE readSubjectNode subjects = .ok raw) :
    ∀ a ∈ raw, ∀ b ∈ raw, a.value = b.value → a.code = b.code → a = b := by
  unfold polyKeyInjB at hinj
  rw [hm] at hinj
  simp only [List.all_eq_true, decide_eq_true_eq] at hinj
  exact hinj

theorem polymersLoad_perm {subs subs' : List SubjectNode} (hp : subs.Perm subs')
    (hinj : polyKeyInjB subs = true)
    {ps : List Polymer} (h : polymersLoad subs = .ok ps) : polymersLoad subs' = .ok ps := by
  cases hm : mapE readSubjectNode subs with
  | error e =>
    have hbad : polymersLoad subs = .error e := by
      unfold polymersLoad
      rw [hm]
    rw [hbad] at h
    exact Except.noConfusion h
  | ok raw =>
    rcases mapE_perm hp hm with ⟨raw', hraw', hperm⟩
    have hmix : mixedValues raw' = mixedValues raw := by
      unfold mixedValues
      rw [perm_any hperm.symm, perm_any hperm.symm]
    by_cases hmx : mixedValues raw = true
    · have hbad : polymersLoad subs = .error .typeError := by
        unfold polymersLoad
        rw [hm]
        show (if mixedValues raw = true then Except.error Err.typeError
              else Except.ok (namePolymers 0 (List.insertionSort lePolyKey raw))) = _
        rw [if_pos hmx]
      rw [hbad] at h
      exact Except.noConfusion h
    · have hval : polymersLoad subs =
          .ok (namePolymers 0 (List.insertionSort lePolyKey raw)) := by
        unfold polymersLoad
        rw [hm]
        show (if mixedValues raw = true then Except.error Err.typeError
              else Except.ok (namePolymers 0 (List.insertionSort lePolyKey raw))) = _
        rw [if_neg hmx]
      have hval' : polymersLoad subs' =
          .ok (namePolymers 0 (List.insertionSort lePolyKey raw')) := by
        unfold polymersLoad
        rw [hraw']
        show (if mixedValues raw' = true then Except.error Err.typeError
              else Except.ok (namePolymers 0 (List.insertionSort lePolyKey raw'))) = _
        rw [hmix, if_neg hmx]
      rw [hval] at h
      have hinj' := polyKeyInjB_spec hinj hm
      have hsorteq : List.insertionSort lePolyKey raw = List.insertionSort lePolyKey raw' := by
        apply sorted_perm_eq
        · exact ((List.perm_insertionSort _ raw).trans hperm).trans
            (List.perm_insertionSort _ raw').symm
        · exact List.sorted_insertionSort _ raw
        · exact List.sorted_insertionSort _ raw'
        · intro a ha b hb hab hba
          have hmem : ∀ x, x ∈ List.insertionSort lePolyKey raw → x ∈ raw :=
            fun x hx => (List.perm_insertionSort lePolyKey raw).mem_iff.1 hx
          rcases lePolyKey_antisymm_key hab hba with ⟨hv, hc⟩
          exact hinj' a (hmem a ha) b (hmem b hb) hv hc
      rw [hval', ← hsorteq]
      exact h

theorem modificationsLoad_perm_ok {nodes nodes' : List ModNode} (hp : nodes.Perm nodes')
    {chains : List Chain} {polymers : List Polymer} {m : Modifications}
    (h : modificationsLoad nodes chains polymers = .ok m) :
    ∃ m', modificationsLoad nodes' chains polymers = .ok m' := by
  cases hm : mapE (processModNode chains polymers) nodes with
  | error e =>
    have hbad : modificationsLoad nodes chains polymers = .error e := by
      unfold modificationsLoad
      rw [hm]
    rw [hbad] at h
    exact Except.noConfusion h
  | ok results =>
    rcases mapE_perm hp hm with ⟨results', hres', _⟩
    refine ⟨⟨nameGroups 0 (pyListSort ltGroup (results'.filterMap Prod.fst)),
      ((nameGroups 0 (pyListSort ltGroup (results'.filterMap Prod.fst))).map
        Substitution.points).flatten,
      List.insertionSort leAtt ((results'.map Prod.snd).flatten)⟩, ?_⟩
    unfold modificationsLoad
    rw [hres']

-- ------------------------------------------------------------------
-- C1: order independence of the full pipeline
-- ------------------------------------------------------------------

/-- C1 (amended).  Permuting the sibling node lists of a document (chain
moieties, other-substance subjects, modification moieties) never changes a
successfully produced identifier string, provided no two extracted polymer
records share the (value, code) sort key.  Without that proviso the claim
fails: see the counterexample, where two polymers with equal value and code
but different connection points swap places.  Chains need no proviso because a
chain record is exactly its (value, local_id) key. -/
theorem c1_order_independence (d d' : Doc)
    (hchain : d.chainNodes.Perm d'.chainNodes)
    (hsubj : d.subjects.Perm d'.subjects)
    (hmod : d.modNodes.Perm d'.modNodes)
    (hinj : polyKeyInjB d.subjects = true)
    (s : String) (hok : pipeline d = .ok s) : pipeline d' = .ok s := by
  cases hc : chainsLoad d.chainNodes with
  | error e =>
    have hbad : pipeline d = .error e := by
      unfold pipeline
      simp only [hc]
    rw [hbad] at hok
    exact Except.noConfusion hok
  | ok chains =>
    cases hp : polymersLoad d.subjects with
    | error e =>
      have hbad : pipeline d = .error e := by
        unfold pipeline
        simp only [hc, hp]
      rw [hbad] at hok
      exact Except.noConfusion hok
    | ok polymers =>
      cases hm : modificationsLoad d.modNodes chains polymers with
      | error e =>
        have hbad : pipeline d = .error e := by
          unfold pipeline
          simp only [hc, hp, hm]
        rw [hbad] at hok
        exact Except.noConfusion hok
      | ok m =>
        have hc' := chainsLoad_perm hchain hc
        have hp' := polymersLoad_perm hsubj hinj hp
        rcases modificationsLoad_perm_ok hmod hm with ⟨m', hm'⟩
        have he : pipeline d' = pipeline d := by
          unfold pipeline
          simp only [hc, hp, hm, hc', hp', hm']
        rw [he]
        exact hok

/-- Structural moiety of the counterexample polymers: chemical-structure value
"V", a well-formed single-value quantity. -/
def c1StructMoiety : SubjMoiety :=
  ⟨[], ["M1"], [], [["V"]], [[("value", "1")]], [[("unit", "u"), ("value", "1")]]⟩

/-- Connection-point moiety carrying two position numbers. -/
def c1ConnMoiety (a b : String) : SubjMoiety :=
  ⟨["C118427"], [], [a, b], [], [], []⟩

/-- First other-substance subject: code P1, value V, connection point N1C2. -/
def c1Subj1 : SubjectNode := ⟨["P1"], [c1StructMoiety, c1ConnMoiety "1" "2"], ["M1"]⟩

/-- Second other-substance subject: the same code P1 and value V, but
connection point N3C4. -/
def c1Subj2 : SubjectNode := ⟨["P1"], [c1StructMoiety, c1ConnMoiety "3" "4"], ["M1"]⟩

/-- Document with the two polymers in one sibling order. -/
def c1DocA : Doc := ⟨[], [c1Subj1, c1Subj2], []⟩

/-- The same document with the two polymer subjects swapped: identical entity
content, permuted siblings. -/
def c1DocB : Doc := ⟨[], [c1Subj2, c1Subj1], []⟩

/-- C1 (counterexample).  The two documents are sibling permutations of each
other with identical entity content, both runs succeed, and the identifier
strings differ byte for byte: the polymers share the (value, code) sort key,
so the stable sort leaves them in document order and their distinct
connection-point renderings swap places in the output. -/
theorem c1_counterexample :
    c1DocA.chainNodes.Perm c1DocB.chainNodes ∧
    c1DocA.subjects.Perm c1DocB.subjects ∧
    c1DocA.modNodes.Perm c1DocB.modNodes ∧
    pipeline c1DocA =
      .ok "/chains=/poly=poly0:V:N1C2;poly1:V:N3C4/mods=\x7b\x7b modifications \x7d\x7d" ∧
    pipeline c1DocB =
      .ok "/chains=/poly=poly0:V:N3C4;poly1:V:N1C2/mods=\x7b\x7b modifications \x7d\x7d" ∧
    pipeline c1DocA ≠ pipeline c1DocB := by
  refine ⟨List.Perm.refl _, ?_, List.Perm.refl _, by decide, by decide, by decide⟩
  decide

/-- Witness document for the amended C1: one chain, one polymer. -/
def c1DocW : Doc := ⟨[⟨["i1"], ["A"]⟩], [c1Subj1], []⟩

/-- C1 witness: the amended theorem applied at a concrete document (against
its own reflexive sibling permutation), every hypothesis discharged by
evaluation. -/
theorem c1_order_independence_witness :
    polyKeyInjB c1DocW.subjects = true ∧
    pipeline c1DocW =
      .ok "/chains=chain0:A/poly=poly0:V:N1C2/mods=\x7b\x7b modifications \x7d\x7d" :=
  ⟨by decide,
   c1_order_independence c1DocW c1DocW (List.Perm.refl _) (List.Perm.refl _)
     (List.Perm.refl _) (by decide) _ (by decide)⟩

-- ------------------------------------------------------------------
-- C2: the renderer and the transform pipeline
-- ------------------------------------------------------------------

/-- C2 (code bug).  Rendering the template of the claim with x bound to the
list of plain strings b, a, c does not produce "a;b;c": the renderer never
applies the parsed sort/join transforms, and its list branch calls
x.to_string() on each element, which a plain str does not have, so the run
raises AttributeError.  Even with renderable elements (template instances
whose rendering is "b", "a", "c") the output is "b;a;c" — the elements joined
with the hard-coded semicolon in original list order, not sorted. -/
theorem c2_transform_pipeline_eval :
    renderTemplate "\x7b\x7b x|sort|join:\";\" \x7d\x7d"
        [("x", .vlist [.vstr "b", .vstr "a", .vstr "c"])] =
      .error (.attributeError "to_string") ∧
    renderTemplate "\x7b\x7b x|sort|join:\";\" \x7d\x7d"
        [("x", .vlist [.vtempl ⟨"b", []⟩, .vtempl ⟨"a", []⟩, .vtempl ⟨"c", []⟩])] =
      .ok "b;a;c" ∧
    ("b;a;c" : String) ≠ "a;b;c" := by
  refine ⟨by decide, by decide, by decide⟩

-- ------------------------------------------------------------------
-- C6: literal round trip and unresolved-variable placeholder
-- ------------------------------------------------------------------

theorem findDelim_none :
    ∀ {cs : List Char},
      (∀ i, i < cs.length → delimOpen.isPrefixOf (cs.drop i) = false) →
      findDelim cs = none := by
  intro cs
  induction cs with
  | nil => intro h; rfl
  | cons c cs ih =>
    intro h
    have h0 := h 0 (by simp)
    simp only [List.drop_zero] at h0
    simp only [findDelim, h0]
    have ht : findDelim cs = none := by
      apply ih
      intro i hi
      have := h (i + 1) (by simp; omega)
      simpa using this
    rw [ht]
    rfl

theorem join_singleton (x : String) : String.join [x] = x := by
  show String.join [x] = x
  simp [String.join]

/-- C6.  A template with no opening delimiter parses to (at most) one literal
node and renders to itself against any context; and an unresolved variable
renders as its own literal placeholder text rather than raising. -/
theorem c6_round_trip :
    (∀ (s : String) (ctx : List (String × Value)),
      (∀ i, i < s.data.length → delimOpen.isPrefixOf (s.data.drop i) = false) →
      renderTemplate s ctx = .ok s) ∧
    (∀ (ctx : List (String × Value)) (name : String) (ts : List Transform),
      dictLookup ctx name = none →
      renderNode ctx (.var ⟨name, ts⟩) = .ok ("\x7b\x7b " ++ name ++ " \x7d\x7d")) := by
  constructor
  · intro s ctx h
    unfold renderTemplate parse
    cases hd : s.data with
    | nil =>
      have hs : s = "" := String.ext (by rw [hd])
      subst hs
      rfl
    | cons c cs =>
      rw [hd] at h
      have hf : findDelim (c :: cs) = none := findDelim_none h
      simp only [parseLoopGo, hf]
      simp only [mapE, renderNode]
      rw [join_singleton]
      have : (⟨c :: cs⟩ : String) = s := by
        apply String.ext
        rw [hd]
      rw [this]
  · intro ctx name ts h
    simp only [renderNode, h]
    rfl

/-- C6 witness: the round-trip theorem applied at a concrete delimiter-free
template and at a concrete unresolved variable. -/
theorem c6_round_trip_witness :
    renderTemplate "/chains=value" [] = .ok "/chains=value" ∧
    renderNode [] (.var ⟨"modifications", []⟩) = .ok "\x7b\x7b modifications \x7d\x7d" :=
  ⟨c6_round_trip.1 "/chains=value" [] (by decide),
   c6_round_trip.2 [] "modifications" [] (by decide)⟩

-- ------------------------------------------------------------------
-- Shared concrete entities for the modification claims
-- ------------------------------------------------------------------

/-- One canonical chain, as produced by a chains load of a single chain. -/
def demoChains : List Chain := [⟨"c1", "V", "chain0"⟩]

/-- One canonical polymer with code P. -/
def demoPolymers : List Polymer := [⟨"P", some "v", [], ⟨"1", "1", "u"⟩, "poly0"⟩]

-- ------------------------------------------------------------------
-- C8: bond position-number cardinality
-- ------------------------------------------------------------------

/-- C8 (code bug).  A substitution bond with one position number does fail
with the document-structure error naming the two-position expectation; but an
attachment bond with two position numbers never reaches the source's
"Expecting one attachment position" check: make_attachment_points assigns to
self.chain first, and self is undefined in that plain function, so the run
dies with NameError before the cardinality test (the test is dead code). -/
theorem c8_bond_cardinality_eval :
    modificationsLoad [⟨["P"], [⟨["c1"], [5]⟩], []⟩] demoChains demoPolymers =
      .error (.splDocument "Expecting two position per bond") ∧
    modificationsLoad [⟨["G"], [], [⟨["c1"], [1, 2]⟩]⟩] demoChains demoPolymers =
      .error (.nameError "self") ∧
    ∀ msg, (Err.nameError "self") ≠ .splDocument msg := by
  refine ⟨by decide, by decide, ?_⟩
  intro msg hc
  exact Err.noConfusion hc

-- ------------------------------------------------------------------
-- C9: StringTemplate.load and absent attributes
-- ------------------------------------------------------------------

/-- C9 (code bug).  Loading declared attributes does store each attribute the
entity possesses; but an absent attribute is not silently skipped: the
finally clause of the source binds it to the previous iteration's value (here
"missing" receives the value loaded for "name"), and when the very first
attribute is absent the never-assigned local is read: UnboundLocalError. -/
theorem c9_load_eval :
    loadCtx ["name", "missing"] [("name", .lstr "n")] =
      .ok [("name", .lstr "n"), ("missing", .lstr "n")] ∧
    loadCtx ["missing"] [] = .error (.unboundLocal "value") ∧
    dictLookup [("name", LeafValue.lstr "n"), ("missing", LeafValue.lstr "n")] "missing" =
      some (.lstr "n") := by
  refine ⟨by decide, by decide, by decide⟩

-- ------------------------------------------------------------------
-- C3: chain and polymer sorting and naming
-- ------------------------------------------------------------------

/-- Sort-relevant projection of a named chain. -/
def rawOfChain (c : Chain) : RawChain := ⟨c.local_id, c.value⟩

/-- Sort-relevant projection of a named polymer. -/
def rawOfPolymer (p : Polymer) : RawPolymer := ⟨p.code, p.value, p.conn_points, p.quantity⟩

theorem nameChains_map_raw : ∀ (l : List RawChain) (k : Nat),
    (nameChains k l).map rawOfChain = l := by
  intro l
  induction l with
  | nil => intro k; rfl
  | cons c cs ih =>
    intro k
    simp only [nameChains, List.map_cons, ih]
    rfl

theorem nameChains_get : ∀ (l : List RawChain) (k i : Nat) (h : i < (nameChains k l).length),
    ((nameChains k l).get ⟨i, h⟩).name = "chain" ++ toString (k + i) := by
  intro l
  induction l with
  | nil =>
    intro k i h
    simp [nameChains] at h
  | cons c cs ih =>
    intro k i h
    cases i with
    | zero => simp [nameChains]
    | succ j =>
      have := ih (k + 1) j (by simpa [nameChains] using h)
      simp only [nameChains, List.get_cons_succ] at this ⊢
      rw [this]
      have harith : k + 1 + j = k + (j + 1) := by omega
      rw [harith]

theorem namePolymers_map_raw : ∀ (l : List RawPolymer) (k : Nat),
    (namePolymers k l).map rawOfPolymer = l := by
  intro l
  induction l with
  | nil => intro k; rfl
  | cons p ps ih =>
    intro k
    simp only [namePolymers, List.map_cons, ih]
    rfl

theorem namePolymers_get : ∀ (l : List RawPolymer) (k i : Nat)
    (h : i < (namePolymers k l).length),
    ((namePolymers k l).get ⟨i, h⟩).name = "poly" ++ toString (k + i) := by
  intro l
  induction l with
  | nil =>
    intro k i h
    simp [namePolymers] at h
  | cons p ps ih =>
    intro k i h
    cases i with
    | zero => simp [namePolymers]
    | succ j =>
      have := ih (k + 1) j (by simpa [namePolymers] using h)
      simp only [namePolymers, List.get_cons_succ] at this ⊢
      rw [this]
      have harith : k + 1 + j = k + (j + 1) := by omega
      rw [harith]

/-- C3.  A successful chains load is sorted ascending by the (value, local_id)
key, carries names "chain" + i by 0-based post-sort index, and breaks
equal-value ties by local_id ascending; a successful polymers load likewise by
(value, code) with names "poly" + i.  Names are a pure function of the sorted
position, so they cannot depend on document order. -/
theorem c3_sort_and_naming :
    (∀ nodes cs, chainsLoad nodes = .ok cs →
      cs.Pairwise (fun a b => leChainKey (rawOfChain a) (rawOfChain b)) ∧
      (∀ i (h : i < cs.length), (cs.get ⟨i, h⟩).name = "chain" ++ toString i) ∧
      (∀ i j (hi : i < cs.length) (hj : j < cs.length), i < j →
        (cs.get ⟨i, hi⟩).value = (cs.get ⟨j, hj⟩).value →
        strLe (cs.get ⟨i, hi⟩).local_id (cs.get ⟨j, hj⟩).local_id = true)) ∧
    (∀ subs ps, polymersLoad subs = .ok ps →
      ps.Pairwise (fun a b => lePolyKey (rawOfPolymer a) (rawOfPolymer b)) ∧
      (∀ i (h : i < ps.length), (ps.get ⟨i, h⟩).name = "poly" ++ toString i) ∧
      (∀ i j (hi : i < ps.length) (hj : j < ps.length), i < j →
        (ps.get ⟨i, hi⟩).value = (ps.get ⟨j, hj⟩).value →
        strLe (ps.get ⟨i, hi⟩).code (ps.get ⟨j, hj⟩).code = true)) := by
  constructor
  · intro nodes cs h
    cases hm : mapE readChainNode nodes with
    | error e =>
      have hbad : chainsLoad nodes = .error e := by
        unfold chainsLoad
        rw [hm]
      rw [hbad] at h
      exact Except.noConfusion h
    | ok raw =>
      have hval : chainsLoad nodes = .ok (nameChains 0 (List.insertionSort leChainKey raw)) := by
        unfold chainsLoad
        rw [hm]
      rw [hval] at h
      have hcs : cs = nameChains 0 (List.insertionSort leChainKey raw) := (okEq h).symm
      subst hcs
      have hsorted : (List.insertionSort leChainKey raw).Pairwise leChainKey :=
        List.sorted_insertionSort leChainKey raw
      have hmapraw := nameChains_map_raw (List.insertionSort leChainKey raw) 0
      have hpair : (nameChains 0 (List.insertionSort leChainKey raw)).Pairwise
          (fun a b => leChainKey (rawOfChain a) (rawOfChain b)) := by
        rw [← List.pairwise_map (f := rawOfChain)]
        rw [hmapraw]
        exact hsorted
      refine ⟨hpair, ?_, ?_⟩
      · intro i hl
        have := nameChains_get (List.insertionSort leChainKey raw) 0 i hl
        simpa using this
      · intro i j hi hj hij hveq
        have hrel := (List.pairwise_iff_get.1 hpair) ⟨i, hi⟩ ⟨j, hj⟩ hij
        rcases hrel with hlt | ⟨_, hle⟩
        · simp only [rawOfChain] at hlt
          rw [hveq] at hlt
          rw [strLt_irrefl] at hlt
          exact Bool.noConfusion hlt
        · exact hle
  · intro subs ps h
    cases hm : mapE readSubjectNode subs with
    | error e =>
      have hbad : polymersLoad subs = .error e := by
        unfold polymersLoad
        rw [hm]
      rw [hbad] at h
      exact Except.noConfusion h
    | ok raw =>
      by_cases hmx : mixedValues raw = true
      · have hbad : polymersLoad subs = .error .typeError := by
          unfold polymersLoad
          rw [hm]
          show (if mixedValues raw = true then Except.error Err.typeError
                else Except.ok (namePolymers 0 (List.insertionSort lePolyKey raw))) = _
          rw [if_pos hmx]
        rw [hbad] at h
        exact Except.noConfusion h
      · have hval : polymersLoad subs =
            .ok (namePolymers 0 (List.insertionSort lePolyKey raw)) := by
          unfold polymersLoad
          rw [hm]
          show (if mixedValues raw = true then Except.error Err.typeError
                else Except.ok (namePolymers 0 (List.insertionSort lePolyKey raw))) = _
          rw [if_neg hmx]
        rw [hval] at h
        have hps : ps = namePolymers 0 (List.insertionSort lePolyKey raw) := (okEq h).symm
        subst hps
        have hsorted : (List.insertionSort lePolyKey raw).Pairwise lePolyKey :=
          List.sorted_insertionSort lePolyKey raw
        have hmapraw := namePolymers_map_raw (List.insertionSort lePolyKey raw) 0
        have hpair : (namePolymers 0 (List.insertionSort lePolyKey raw)).Pairwise
            (fun a b => lePolyKey (rawOfPolymer a) (rawOfPolymer b)) := by
          rw [← List.pairwise_map (f := rawOfPolymer)]
          rw [hmapraw]
          exact hsorted
        refine ⟨hpair, ?_, ?_⟩
        · intro i hl
          have := namePolymers_get (List.insertionSort lePolyKey raw) 0 i hl
          simpa using this
        · intro i j hi hj hij hveq
          have hrel := (List.pairwise_iff_get.1 hpair) ⟨i, hi⟩ ⟨j, hj⟩ hij
          rcases hrel with hlt | ⟨_, hle⟩
          · simp only [rawOfPolymer] at hlt
            rw [hveq] at hlt
            rw [optValLt_irrefl] at hlt
            exact Bool.noConfusion hlt
          · exact hle

/-- Chain nodes of the spec scenario: values ABC, A, AA in arbitrary document
order. -/
def c3DemoNodes : List ChainNode := [⟨["i3"], ["ABC"]⟩, ⟨["i1"], ["A"]⟩, ⟨["i2"], ["AA"]⟩]

/-- Expected canonical chains for the scenario. -/
def c3DemoChains : List Chain :=
  [⟨"i1", "A", "chain0"⟩, ⟨"i2", "AA", "chain1"⟩, ⟨"i3", "ABC", "chain2"⟩]

/-- C3 witness: the sorting/naming theorem applied at the spec's three-chain
scenario, its hypothesis discharged by evaluation. -/
theorem c3_sort_and_naming_witness :
    chainsLoad c3DemoNodes = .ok c3DemoChains ∧
    c3DemoChains.Pairwise (fun a b => leChainKey (rawOfChain a) (rawOfChain b)) :=
  ⟨by decide, (c3_sort_and_naming.1 c3DemoNodes c3DemoChains (by decide)).1⟩

-- ------------------------------------------------------------------
-- C4: substitution group ordering and naming
-- ------------------------------------------------------------------

theorem ltPoint_asymm : ∀ a b : SubstitutionPoint, ltPoint a b = true → ltPoint b a = false := by
  intro a b h
  unfold ltPoint at h ⊢
  by_cases p1 : strLt a.polymerName b.polymerName = true
  · simp [p1, strLt_asymm p1]
  · simp only [Bool.not_eq_true] at p1
    by_cases p2 : strLt b.polymerName a.polymerName = true
    · simp [p1, p2] at h
    · simp only [Bool.not_eq_true] at p2
      by_cases q1 : a.connection_point < b.connection_point
      · have q1' : ¬ b.connection_point < a.connection_point := by omega
        simp [p1, p2, q1, q1']
      · by_cases q2 : b.connection_point < a.connection_point
        · simp [p1, p2, q1, q2] at h
        · by_cases r1 : strLt a.chainName b.chainName = true
          · simp [p1, p2, q1, q2, r1, strLt_asymm r1]
          · simp only [Bool.not_eq_true] at r1
            by_cases r2 : strLt b.chainName a.chainName = true
            · simp [p1, p2, q1, q2, r1, r2] at h
            · simp only [Bool.not_eq_true] at r2
              by_cases s1 : a.position < b.position
              · have s1' : ¬ b.position < a.position := by omega
                simp [p1, p2, q1, q2, r1, r2, s1, s1']
              · by_cases s2 : b.position < a.position
                · simp [p1, p2, q1, q2, r1, r2, s1, s2] at h
                · simp [p1, p2, q1, q2, r1, r2, s1, s2] at h

theorem ltPoint_trans : ∀ a b c : SubstitutionPoint,
    ltPoint a b = true → ltPoint b c = true → ltPoint a c = true := by
  intro a b c h1 h2
  unfold ltPoint at h1 h2 ⊢
  by_cases p1 : strLt a.polymerName b.polymerName = true
  · by_cases p2 : strLt b.polymerName c.polymerName = true
    · simp [strLt_trans p1 p2]
    · simp only [Bool.not_eq_true] at p2
      by_cases p3 : strLt c.polymerName b.polymerName = true
      · simp [p2, p3] at h2
      · simp only [Bool.not_eq_true] at p3
        have hbc := strLt_conn p2 p3
        rw [← hbc]
        simp [p1]
  · simp only [Bool.not_eq_true] at p1
    by_cases p1' : strLt b.polymerName a.polymerName = true
    · simp [p1, p1'] at h1
    · simp only [Bool.not_eq_true] at p1'
      have hab := strLt_conn p1 p1'
      rw [hab]
      by_cases p2 : strLt b.polymerName c.polymerName = true
      · simp [p2]
      · simp only [Bool.not_eq_true] at p2
        by_cases p3 : strLt c.polymerName b.polymerName = true
        · simp [p2, p3] at h2
        · simp only [Bool.not_eq_true] at p3
          simp only [p1, p1', p2, p3] at h1 h2
          simp only [p2, p3]
          simp only [Bool.false_eq_true, if_false] at h1 h2 ⊢
          by_cases q1 : a.connection_point < b.connection_point
          · by_cases q2 : b.connection_point < c.connection_point
            · have : a.connection_point < c.connection_point := by omega
              simp [this]
            · by_cases q3 : c.connection_point < b.connection_point
              · simp [q2, q3] at h2
              · have : a.connection_point < c.connection_point := by omega
                simp [this]
          · by_cases q1' : b.connection_point < a.connection_point
            · simp [q1, q1'] at h1
            · have hq : a.connection_point = b.connection_point := by omega
              rw [hq]
              by_cases q2 : b.connection_point < c.connection_point
              · simp [q2]
              · by_cases q3 : c.connection_point < b.connection_point
                · simp [q2, q3] at h2
                · simp only [q1, q1', q2, q3] at h1 h2
                  simp only [q2, q3]
                  simp only [Bool.false_eq_true, if_false] at h1 h2 ⊢
                  by_cases r1 : strLt a.chainName b.chainName = true
                  · by_cases r2 : strLt b.chainName c.chainName = true
                    · simp [strLt_trans r1 r2]
                    · simp only [Bool.not_eq_true] at r2
                      by_cases r3 : strLt c.chainName b.chainName = true
                      · simp [r2, r3] at h2
                      · simp only [Bool.not_eq_true] at r3
                        have hbc := strLt_conn r2 r3
                        rw [← hbc]
                        simp [r1]
                  · simp only [Bool.not_eq_true] at r1
                    by_cases r1' : strLt b.chainName a.chainName = true
                    · simp [r1, r1'] at h1
                    · simp only [Bool.not_eq_true] at r1'
                      have hab2 := strLt_conn r1 r1'
                      rw [hab2]
                      by_cases r2 : strLt b.chainName c.chainName = true
                      · simp [r2]
                      · simp only [Bool.not_eq_true] at r2
                        by_cases r3 : strLt c.chainName b.chainName = true
                        · simp [r2, r3] at h2
                        · simp only [Bool.not_eq_true] at r3
                          simp only [r1, r1', r2, r3] at h1 h2
                          simp only [r2, r3]
                          simp only [Bool.false_eq_true, if_false] at h1 h2 ⊢
                          by_cases s1 : a.position < b.position
                          · by_cases s2 : b.position < c.position
                            · have : a.position < c.position := by omega
                              simp [this]
                            · by_cases s3 : c.position < b.position
                              · simp [s2, s3] at h2
                              · have : a.position < c.position := by omega
                                simp [this]
                          · by_cases s1' : b.position < a.position
                            · simp [s1, s1'] at h1
                            · simp [s1, s1'] at h1

theorem ltPoint_eq_of_incomp {a b : SubstitutionPoint}
    (h1 : ltPoint a b = false) (h2 : ltPoint b a = false) :
    a.polymerName = b.polymerName ∧ a.connection_point = b.connection_point ∧
      a.chainName = b.chainName ∧ a.position = b.position := by
  unfold ltPoint at h1 h2
  by_cases p1 : strLt a.polymerName b.polymerName = true
  · simp [p1] at h1
  · simp only [Bool.not_eq_true] at p1
    by_cases p2 : strLt b.polymerName a.polymerName = true
    · simp [p2] at h2
    · simp only [Bool.not_eq_true] at p2
      refine ⟨strLt_conn p1 p2, ?_⟩
      simp only [p1, p2, Bool.false_eq_true, if_false] at h1 h2
      by_cases q1 : a.connection_point < b.connection_point
      · simp [q1] at h1
      · by_cases q2 : b.connection_point < a.connection_point
        · simp [q2] at h2
        · refine ⟨by omega, ?_⟩
          simp only [q1, q2, if_false] at h1 h2
          by_cases r1 : strLt a.chainName b.chainName = true
          · simp [r1] at h1
          · simp only [Bool.not_eq_true] at r1
            by_cases r2 : strLt b.chainName a.chainName = true
            · simp [r2] at h2
            · simp only [Bool.not_eq_true] at r2
              refine ⟨strLt_conn r1 r2, ?_⟩
              simp only [r1, r2, Bool.false_eq_true, if_false] at h1 h2
              by_cases s1 : a.position < b.position
              · simp [s1] at h1
              · by_cases s2 : b.position < a.position
                · simp [s2] at h2
                · omega

theorem ltPoint_congr_left {a a' b : SubstitutionPoint}
    (hp : a.polymerName = a'.polymerName) (hc : a.connection_point = a'.connection_point)
    (hn : a.chainName = a'.chainName) (hq : a.position = a'.position) :
    ltPoint a b = ltPoint a' b := by
  unfold ltPoint
  rw [hp, hc, hn, hq]

instance : IsTotal SubstitutionPoint lePoint := by
  constructor
  intro a b
  unfold lePoint
  cases h : ltPoint b a
  · left; rfl
  · right
    exact ltPoint_asymm b a h

instance : IsTrans SubstitutionPoint lePoint := by
  constructor
  intro a b c h1 h2
  unfold lePoint at h1 h2 ⊢
  cases hca : ltPoint c a
  · rfl
  · exfalso
    cases hbc : ltPoint b c
    · rcases ltPoint_eq_of_incomp hbc h2 with ⟨e1, e2, e3, e4⟩
      have := ltPoint_congr_left e1.symm e2.symm e3.symm e4.symm (b := a)
      rw [hca, h1] at this
      exact Bool.noConfusion this
    · have := ltPoint_trans b c a hbc hca
      rw [h1] at this
      exact Bool.noConfusion this

theorem ascRun_append {α : Type} (lt : α → α → Bool) :
    ∀ (cs : List α) (prev : α), (ascRun lt prev cs).1 ++ (ascRun lt prev cs).2 = prev :: cs := by
  intro cs
  induction cs with
  | nil => intro prev; rfl
  | cons c cs ih =>
    intro prev
    simp only [ascRun]
    by_cases h : lt c prev = true
    · simp [h]
    · simp only [Bool.not_eq_true] at h
      simp only [h, Bool.false_eq_true, if_false]
      have := ih c
      simp only [List.cons_append]
      rw [this]

theorem descRun_append {α : Type} (lt : α → α → Bool) :
    ∀ (cs : List α) (prev : α), (descRun lt prev cs).1 ++ (descRun lt prev cs).2 = prev :: cs := by
  intro cs
  induction cs with
  | nil => intro prev; rfl
  | cons c cs ih =>
    intro prev
    simp only [descRun]
    by_cases h : lt c prev = true
    · simp only [h, if_true]
      have := ih c
      simp only [List.cons_append]
      rw [this]
    · simp only [Bool.not_eq_true] at h
      simp [h]

theorem initialRun_perm {α : Type} (lt : α → α → Bool) (l : List α) :
    ((initialRun lt l).1 ++ (initialRun lt l).2).Perm l := by
  match l with
  | [] => exact List.Perm.refl _
  | [a] => exact List.Perm.refl _
  | a :: b :: rest =>
    simp only [initialRun]
    by_cases h : lt b a = true
    · simp only [h, if_true]
      show ((a :: (descRun lt b rest).1).reverse ++ (descRun lt b rest).2).Perm (a :: b :: rest)
      refine List.Perm.trans ((List.reverse_perm _).append_right _) ?_
      rw [List.cons_append, descRun_append]
    · simp only [Bool.not_eq_true] at h
      simp only [h, Bool.false_eq_true, if_false]
      show ((a :: (ascRun lt b rest).1) ++ (ascRun lt b rest).2).Perm (a :: b :: rest)
      rw [List.cons_append, ascRun_append]

theorem insertAt_perm {α : Type} (l : List α) (i : Nat) (x : α) :
    (insertAt l i x).Perm (x :: l) := by
  unfold insertAt
  exact List.perm_middle.trans (by rw [List.take_append_drop])

theorem binarySortLoop_perm {α : Type} (lt : α → α → Bool) :
    ∀ (todo sorted : List α), (binarySortLoop lt sorted todo).Perm (sorted ++ todo) := by
  intro todo
  induction todo with
  | nil =>
    intro sorted
    simp [binarySortLoop]
  | cons x rest ih =>
    intro sorted
    simp only [binarySortLoop]
    have h1 := ih (insertAt sorted (binInsertPos lt sorted x) x)
    have h2 : (insertAt sorted (binInsertPos lt sorted x) x ++ rest).Perm
        (sorted ++ x :: rest) := by
      refine List.Perm.trans ((insertAt_perm sorted _ x).append_right rest) ?_
      rw [List.cons_append]
      exact List.perm_middle.symm
    exact h1.trans h2

theorem pyListSort_perm {α : Type} (lt : α → α → Bool) (l : List α) :
    (pyListSort lt l).Perm l := by
  unfold pyListSort
  exact (binarySortLoop_perm lt (initialRun lt l).2 (initialRun lt l).1).trans
    (initialRun_perm lt l)

/-- Every output element of a successful effectful map comes from some input
element. -/
theorem mapE_mem_rev {α β : Type} {f : α → Except Err β} :
    ∀ {l : List α} {ys : List β}, mapE f l = .ok ys → ∀ y ∈ ys, ∃ x ∈ l, f x = .ok y := by
  intro l
  induction l with
  | nil =>
    intro ys h y hy
    simp only [mapE] at h
    rw [← okEq h] at hy
    cases hy
  | cons a t ih =>
    intro ys h y hy
    simp only [mapE] at h
    split at h
    · exact Except.noConfusion h
    · rename_i ya hya
      split at h
      · exact Except.noConfusion h
      · rename_i ys' hys
        rw [← okEq h] at hy
        rcases hy with _ | hy
        · exact ⟨a, by simp, hya⟩
        · rcases ih hys y (by assumption) with ⟨x, hx, hfx⟩
          exact ⟨x, by simp [hx], hfx⟩

/-- The substitution group built for a node has its points sorted by the point
order. -/
theorem processModNode_points_sorted {chains : List Chain} {polymers : List Polymer}
    {node : ModNode} {r : Option Substitution × List AttachmentPoint}
    (h : processModNode chains polymers node = .ok r) :
    ∀ g, r.1 = some g → g.points.Pairwise lePoint := by
  intro g hg
  unfold processModNode at h
  split at h
  · rename_i code heq
    split at h
    · exact Except.noConfusion h
    · rename_i sub? hsub
      split at h
      · exact Except.noConfusion h
      · rename_i atts hatts
        have hr := okEq h
        rw [← hr] at hg
        simp only at hg
        subst hg
        split at hsub
        · have hcon := okEq hsub
          exact Option.noConfusion hcon
        · split at hsub
          · exact Except.noConfusion hsub
          · rename_i poly hpoly
            split at hsub
            · exact Except.noConfusion hsub
            · rename_i sub hmk
              have hgsub : sub = g := Option.some.inj (okEq hsub)
              subst hgsub
              unfold makeSubstitutionPoints at hmk
              split at hmk
              · exact Except.noConfusion hmk
              · rename_i pts hpts
                have := okEq hmk
                rw [← this]
                exact List.sorted_insertionSort lePoint pts
  · exact Except.noConfusion h

/-- Renaming the points of a group preserves their sortedness: the point order
never reads the name field. -/
theorem pairwise_lePoint_rename {pts : List SubstitutionPoint} (nm : Option String)
    (h : pts.Pairwise lePoint) :
    (pts.map (fun p => { p with name := nm })).Pairwise lePoint := by
  rw [List.pairwise_map]
  apply h.imp
  intro a b hab
  unfold lePoint at hab ⊢
  rw [← hab]
  exact (ltPoint_congr_left rfl rfl rfl rfl).symm.trans
    (ltPoint_congr_left rfl rfl rfl rfl)

/-- Membership in the named group list comes from membership before naming,
with all points renamed uniformly. -/
theorem nameGroups_mem :
    ∀ (gs : List Substitution) (k : Nat) (g : Substitution), g ∈ nameGroups k gs →
      ∃ g' ∈ gs, ∃ nm, g.points = g'.points.map (fun p => { p with name := some nm }) := by
  intro gs
  induction gs with
  | nil =>
    intro k g hg
    cases hg
  | cons g0 rest ih =>
    intro k g hg
    simp only [nameGroups] at hg
    rcases hg with _ | hg
    · exact ⟨g0, by simp, "sub" ++ toString k, rfl⟩
    · rcases ih (k + 1) g (by assumption) with ⟨g', hg', nm, hpts⟩
      exact ⟨g', by simp [hg'], nm, hpts⟩

/-- Points of the group at sorted position i all carry the name "sub" + i. -/
theorem nameGroups_get_name :
    ∀ (gs : List Substitution) (k i : Nat) (h : i < (nameGroups k gs).length),
      ∀ p ∈ ((nameGroups k gs).get ⟨i, h⟩).points,
        p.name = some ("sub" ++ toString (k + i)) := by
  intro gs
  induction gs with
  | nil =>
    intro k i h
    simp [nameGroups] at h
  | cons g0 rest ih =>
    intro k i h
    cases i with
    | zero =>
      intro p hp
      simp only [nameGroups, List.get] at hp
      rcases List.mem_map.1 hp with ⟨q, _, hq⟩
      rw [← hq]
      rfl
    | succ j =>
      intro p hp
      have := ih (k + 1) j (by simpa [nameGroups] using h) p
        (by simpa [nameGroups, List.get] using hp)
      rw [this]
      have harith : k + 1 + j = k + (j + 1) := by omega
      rw [harith]

/-- C4 (amended).  In a successful modifications load every substitution group
is internally sorted by the lexicographic point key, and all points of the
group at post-sort index i carry the name "sub" + i.  The group list itself is
ordered by Python's sort under Substitution.__lt__, a pointwise comparison
that is not a strict order and does not generally coincide with comparing the
groups' first points — the counterexample exhibits two groups left in
document order although the first point of the later group is strictly below
that of the earlier one. -/
theorem c4_groups_amended :
    ∀ nodes chains polymers m, modificationsLoad nodes chains polymers = .ok m →
      (∀ g ∈ m.substitutions, g.points.Pairwise lePoint) ∧
      (∀ i (h : i < m.substitutions.length),
        ∀ p ∈ (m.substitutions.get ⟨i, h⟩).points, p.name = some ("sub" ++ toString i)) := by
  intro nodes chains polymers m h
  cases hm : mapE (processModNode chains polymers) nodes with
  | error e =>
    have hbad : modificationsLoad nodes chains polymers = .error e := by
      unfold modificationsLoad
      rw [hm]
    rw [hbad] at h
    exact Except.noConfusion h
  | ok results =>
    have hval : modificationsLoad nodes chains polymers =
        .ok ⟨nameGroups 0 (pyListSort ltGroup (results.filterMap Prod.fst)),
          ((nameGroups 0 (pyListSort ltGroup (results.filterMap Prod.fst))).map
            Substitution.points).flatten,
          List.insertionSort leAtt ((results.map Prod.snd).flatten)⟩ := by
      unfold modificationsLoad
      rw [hm]
    rw [hval] at h
    have hmm := okEq h
    rw [← hmm]
    constructor
    · intro g hg
      rcases nameGroups_mem _ 0 g hg with ⟨g', hg', nm, hpts⟩
      have hg'' : g' ∈ results.filterMap Prod.fst :=
        (pyListSort_perm ltGroup _).mem_iff.1 hg'
      rcases List.mem_filterMap.1 hg'' with ⟨r, hr, hfst⟩
      rcases mapE_mem_rev hm r hr with ⟨node, _, hpn⟩
      have hsorted := processModNode_points_sorted hpn g' hfst
      rw [hpts]
      exact pairwise_lePoint_rename (some nm) hsorted
    · intro i hi p hp
      have := nameGroups_get_name _ 0 i hi p hp
      simpa using this

/-- First modification node of the C4 counterexample: its two bonds give
points at chain positions 2 and 3. -/
def c4NodeB : ModNode := ⟨["P"], [⟨["c1"], [1, 2]⟩, ⟨["c1"], [2, 3]⟩], []⟩

/-- Second modification node: points at chain positions 1 and 5. -/
def c4NodeA : ModNode := ⟨["P"], [⟨["c1"], [1, 1]⟩, ⟨["c1"], [2, 5]⟩], []⟩

/-- The modifications model the code produces for document order [B, A]. -/
def c4Expected : Modifications :=
  ⟨[⟨[⟨"poly0", 1, "chain0", 2, some "sub0"⟩, ⟨"poly0", 2, "chain0", 3, some "sub0"⟩]⟩,
    ⟨[⟨"poly0", 1, "chain0", 1, some "sub1"⟩, ⟨"poly0", 2, "chain0", 5, some "sub1"⟩]⟩],
   [⟨"poly0", 1, "chain0", 2, some "sub0"⟩, ⟨"poly0", 2, "chain0", 3, some "sub0"⟩,
    ⟨"poly0", 1, "chain0", 1, some "sub1"⟩, ⟨"poly0", 2, "chain0", 5, some "sub1"⟩],
   []⟩

/-- C4 (counterexample).  With document order [B, A] the code's group sort
keeps [B, A] (its pointwise comparator makes the two groups incomparable), so
group B gets the name sub0 and group A gets sub1 — although the first point of
group A, (poly0, 1, chain0, 1), is strictly below the first point of group B,
(poly0, 1, chain0, 2), under the point key: the groups are not ordered by
their first points.  Reversing the document order reverses the result, so the
names also depend on document order. -/
theorem c4_counterexample :
    modificationsLoad [c4NodeB, c4NodeA] demoChains demoPolymers = .ok c4Expected ∧
    ltPoint ⟨"poly0", 1, "chain0", 1, some "sub1"⟩ ⟨"poly0", 1, "chain0", 2, some "sub0"⟩ =
      true ∧
    modificationsLoad [c4NodeA, c4NodeB] demoChains demoPolymers ≠
      modificationsLoad [c4NodeB, c4NodeA] demoChains demoPolymers := by
  refine ⟨by decide, by decide, by decide⟩

/-- C4 witness: the amended theorem applied at the counterexample's document,
its hypothesis discharged by evaluation. -/
theorem c4_groups_amended_witness :
    modificationsLoad [c4NodeB, c4NodeA] demoChains demoPolymers = .ok c4Expected ∧
    (∀ g ∈ c4Expected.substitutions, g.points.Pairwise lePoint) :=
  ⟨by decide,
   (c4_groups_amended [c4NodeB, c4NodeA] demoChains demoPolymers c4Expected (by decide)).1⟩

-- ------------------------------------------------------------------
-- C5: dangling substitution references
-- ------------------------------------------------------------------

/-- A node whose substitution bond references an unknown chain local id can
never be processed successfully. -/
theorem processModNode_ok_resolves {chains : List Chain} {polymers : List Polymer}
    {node : ModNode} {r : Option Substitution × List AttachmentPoint}
    (h : processModNode chains polymers node = .ok r) :
    ∀ bond ∈ node.subBonds, ∀ lid rest, bond.distalIds = lid :: rest →
      dictLookup (buildDict Chain.local_id chains) lid ≠ none := by
  intro bond hbond lid rest hids hnone
  unfold processModNode at h
  split at h
  · rename_i code heq
    split at h
    · exact Except.noConfusion h
    · rename_i sub? hsub
      split at hsub
      · rename_i hempty
        rw [List.isEmpty_iff] at hempty
        rw [hempty] at hbond
        cases hbond
      · split at hsub
        · exact Except.noConfusion hsub
        · rename_i poly hpoly
          split at hsub
          · exact Except.noConfusion hsub
          · rename_i sub hmk
            unfold makeSubstitutionPoints at hmk
            split at hmk
            · exact Except.noConfusion hmk
            · rename_i pts hpts
              rcases mapE_ok_mem hpts bond hbond with ⟨y, hy⟩
              rw [hids] at hy
              simp [chainLookupE, hnone] at hy
  · exact Except.noConfusion h

/-- C5.  A substitution bond whose distal chain local id is absent from the
chains lookup aborts modification extraction: no model (and hence no
identifier string) is ever produced from such a document; when the dangling
lookup is the first fault the raised error is precisely Python's KeyError for
that id — an error kind distinct from the SPLDocumentError used for ordinary
missing fields. -/
theorem c5_cross_reference :
    (∀ nodes chains polymers m,
      (∃ node ∈ nodes, ∃ bond ∈ node.subBonds, ∃ lid rest, bond.distalIds = lid :: rest ∧
        dictLookup (buildDict Chain.local_id chains) lid = none) →
      modificationsLoad nodes chains polymers ≠ .ok m) ∧
    (∀ chains polymers c x ids ps poly,
      dictLookup (buildDict Polymer.code polymers) c = some poly →
      dictLookup (buildDict Chain.local_id chains) x = none →
      modificationsLoad [⟨[c], [⟨x :: ids, ps⟩], []⟩] chains polymers =
        .error (.keyError x)) ∧
    (∀ x msg, (Err.keyError x) ≠ .splDocument msg) := by
  refine ⟨?_, ?_, ?_⟩
  · intro nodes chains polymers m hdangling hok
    rcases hdangling with ⟨node, hnode, bond, hbond, lid, rest, hids, hnone⟩
    cases hm : mapE (processModNode chains polymers) nodes with
    | error e =>
      have hbad : modificationsLoad nodes chains polymers = .error e := by
        unfold modificationsLoad
        rw [hm]
      rw [hbad] at hok
      exact Except.noConfusion hok
    | ok results =>
      rcases mapE_ok_mem hm node hnode with ⟨r, hr⟩
      exact processModNode_ok_resolves hr bond hbond lid rest hids hnone
  · intro chains polymers c x ids ps poly hp hx
    have hmk : makeSubstitutionPoints [⟨x :: ids, ps⟩] poly chains = .error (.keyError x) := by
      unfold makeSubstitutionPoints
      simp [mapE, chainLookupE, hx]
    have hpn : processModNode chains polymers ⟨[c], [⟨x :: ids, ps⟩], []⟩ =
        .error (.keyError x) := by
      unfold processModNode
      simp [List.isEmpty, polymerLookupE, hp, hmk]
    unfold modificationsLoad
    simp [mapE, hpn]
  · intro x msg hc
    exact Err.noConfusion hc

/-- C5 witness: the theorem applied at a concrete document whose one
substitution bond references the unknown chain id cX, all hypotheses
discharged by evaluation. -/
theorem c5_cross_reference_witness :
    modificationsLoad [⟨["P"], [⟨["cX"], [5, 6]⟩], []⟩] demoChains demoPolymers =
      .error (.keyError "cX") ∧
    modificationsLoad [⟨["P"], [⟨["cX"], [5, 6]⟩], []⟩] demoChains demoPolymers ≠
      .ok ⟨[], [], []⟩ :=
  ⟨c5_cross_reference.2.1 demoChains demoPolymers "P" "cX" [] [5, 6]
      ⟨"P", some "v", [], ⟨"1", "1", "u"⟩, "poly0"⟩ (by decide) (by decide),
   c5_cross_reference.1 [⟨["P"], [⟨["cX"], [5, 6]⟩], []⟩] demoChains demoPolymers ⟨[], [], []⟩
     ⟨⟨["P"], [⟨["cX"], [5, 6]⟩], []⟩, by decide, ⟨["cX"], [5, 6]⟩, by decide, "cX", [],
       rfl, by decide⟩⟩

-- ------------------------------------------------------------------
-- C7: what parsing a malformed template actually raises
-- ------------------------------------------------------------------

theorem matchTransformation_err {cs : List Char} {e : Err}
    (h : matchTransformation cs = .error e) : e = .indexError := by
  have hs := matchName_stops cs
  unfold matchTransformation at h
  split at h
  · exact (Except.error.inj h).symm
  · rename_i c rest heq
    rcases hs with hs | ⟨c', r', hcr, hc'⟩
    · rw [heq] at hs
      exact List.noConfusion hs
    · rw [heq] at hcr
      have h1 : c = c' := by
        have := congrArg List.head? hcr
        simpa using this
      subst h1
      have hcne : ¬ c = ':' := by
        rcases hc' with hc' | hc' <;> rw [hc'] <;> decide
      rw [if_neg hcne] at h
      exact Except.noConfusion h

theorem trLoopGo_err :
    ∀ (fuel : Nat) (cs : List Char) (ts : List Transform) (e : Err),
      cs.length < fuel → trLoopGo fuel ts cs = .error e → e = .indexError := by
  intro fuel
  induction fuel with
  | zero =>
    intro cs ts e hl h
    omega
  | succ fuel ih =>
    intro cs ts e hl h
    match cs with
    | [] =>
      simp only [trLoopGo] at h
      exact ((Except.error.inj h)).symm
    | c :: rest =>
      simp only [trLoopGo] at h
      split at h
      · split at h
        · rename_i e' hm
          have := matchTransformation_err hm
          rw [← Except.error.inj h]
          exact this
        · rename_i t cs2 hm
          have h1 := matchTransformation_length_le rest t cs2 hm
          have hl2 : cs2.length < fuel := by
            simp at hl
            omega
          exact ih cs2 _ _ hl2 h
      · exact Except.noConfusion h

theorem matchVariable_err {cs : List Char} {e : Err}
    (h : matchVariable cs = .error e) : e = .indexError := by
  unfold matchVariable at h
  split at h
  · rename_i e' htl
    have := trLoopGo_err _ _ _ _ (Nat.lt_succ_self _) htl
    rw [← Except.error.inj h]
    exact this
  · exact Except.noConfusion h

theorem matchPattern_err {pat cs : List Char} {e : Err}
    (h : matchPattern pat cs = .error e) : e = .nameError "ParserError" := by
  unfold matchPattern at h
  split at h
  · exact Except.noConfusion h
  · exact (Except.error.inj h).symm

theorem parseVariable_err {cs : List Char} {e : Err}
    (h : parseVariable cs = .error e) :
    e = .indexError ∨ e = .nameError "ParserError" := by
  unfold parseVariable at h
  split at h
  · rename_i e' h1
    rw [← Except.error.inj h]
    exact Or.inr (matchPattern_err h1)
  · rename_i cs1 h1
    split at h
    · rename_i e' h2
      rw [← Except.error.inj h]
      exact Or.inl (matchVariable_err h2)
    · rename_i v cs2 h2
      split at h
      · rename_i e' h3
        rw [← Except.error.inj h]
        exact Or.inr (matchPattern_err h3)
      · exact Except.noConfusion h

theorem parseLoopGo_err :
    ∀ (fuel : Nat) (cs : List Char) (e : Err),
      cs.length < fuel → parseLoopGo fuel cs = .error e →
      e = .indexError ∨ e = .nameError "ParserError" := by
  intro fuel
  induction fuel with
  | zero =>
    intro cs e hl h
    omega
  | succ fuel ih =>
    intro cs e hl h
    match cs with
    | [] =>
      simp only [parseLoopGo] at h
      exact Except.noConfusion h
    | c :: rest =>
      simp only [parseLoopGo] at h
      split at h
      · exact Except.noConfusion h
      · rename_i i hfind
        split at h
        · rename_i e' hv
          rw [← Except.error.inj h]
          exact parseVariable_err hv
        · rename_i v after hv
          split at h
          · rename_i e' hrec
            have hlen := parseVariable_length _ _ _ hv
            have hdrop : ((c :: rest).drop i).length ≤ (c :: rest).length := by
              rw [List.length_drop]
              omega
            have hl2 : after.length < fuel := by
              simp only [List.length_cons] at hl hdrop
              omega
            rw [← Except.error.inj h]
            exact ih after _ hl2 hrec
          · exact Except.noConfusion h

/-- C7 (amended).  Whenever parsing a template fails, the exception is not a
dedicated syntax error carrying a character offset: it is either Python's
IndexError (the scan indexed past the end of the input) or the NameError
raised by the statement raise ParserError(), because the ParserError class is
never defined anywhere in the source — and neither carries any offset. -/
theorem c7_error_kinds :
    ∀ (s : String) (e : Err), parse s = .error e →
      e = .indexError ∨ e = .nameError "ParserError" := by
  intro s e h
  unfold parse at h
  exact parseLoopGo_err _ _ _ (Nat.lt_succ_self _) h

/-- C7 (counterexample).  Two templates whose opening delimiter is never
properly closed: one dies with IndexError (end of input while scanning the
variable), the other with NameError for the undefined ParserError class.
Neither raises a syntax-error object, and no character offset exists anywhere
in the raising code. -/
theorem c7_counterexample :
    parse "\x7b\x7b x" = .error .indexError ∧
    parse "\x7b\x7b x \x7d" = .error (.nameError "ParserError") := by
  refine ⟨by decide, by decide⟩

/-- C7 witness: the amended theorem applied at a concrete malformed template,
its hypothesis discharged by evaluation. -/
theorem c7_error_kinds_witness :
    parse "\x7b\x7b a|" = .error Err.indexError ∧
    (Err.indexError = .indexError ∨ Err.indexError = .nameError "ParserError") :=
  ⟨by decide, c7_error_kinds "\x7b\x7b a|" .indexError (by decide)⟩

-- ------------------------------------------------------------------
-- C10: attachment extraction can never produce a point
-- ------------------------------------------------------------------

/-- make_attachment_points never returns: every path through it raises. -/
theorem makeAttachmentPoints_never_ok :
    ∀ (g : String) (bonds : List BondNode) (chains : List Chain)
      (r : List AttachmentPoint), makeAttachmentPoints g bonds chains ≠ .ok r := by
  intro g bonds chains r h
  unfold makeAttachmentPoints at h
  split at h
  · split at h
    · exact Except.noConfusion h
    · split at h
      · exact Except.noConfusion h
      · exact Except.noConfusion h
  · exact Except.noConfusion h

/-- A node is processed successfully only when it has no attachment bonds, and
then contributes no attachment points. -/
theorem processModNode_atts_empty {chains : List Chain} {polymers : List Polymer}
    {node : ModNode} {r : Option Substitution × List AttachmentPoint}
    (h : processModNode chains polymers node = .ok r) :
    r.2 = [] ∧ node.attBonds = [] := by
  unfold processModNode at h
  split at h
  · rename_i code heq
    split at h
    · exact Except.noConfusion h
    · rename_i sub? hsub
      split at h
      · exact Except.noConfusion h
      · rename_i atts hatts
        have hr := okEq h
        split at hatts
        · rename_i hempty
          rw [List.isEmpty_iff] at hempty
          have hatts' : atts = [] := (okEq hatts).symm
          rw [← hr]
          exact ⟨by simpa using hatts', hempty⟩
        · exact absurd hatts (makeAttachmentPoints_never_ok _ _ _ _)
  · exact Except.noConfusion h

/-- C10 (amended).  Extraction fails on every document in which some
modification moiety carries attachment bonds — with the NameError for the
undefined name self when a moiety carries exactly one attachment bond whose
distal chain reference resolves, and with other exceptions (bond-count
SPLDocumentError, KeyError, IndexError) on the remaining shapes; consequently
no AttachmentPoint is ever constructed and the attachments collection of any
successful extraction is empty. -/
theorem c10_attachments_amended :
    (∀ nodes chains polymers m, (∃ node ∈ nodes, node.attBonds ≠ []) →
      modificationsLoad nodes chains polymers ≠ .ok m) ∧
    (∀ nodes chains polymers m, modificationsLoad nodes chains polymers = .ok m →
      m.attachments = []) ∧
    (∀ chains polymers g lid ids ps ch,
      dictLookup (buildDict Chain.local_id chains) lid = some ch →
      modificationsLoad [⟨[g], [], [⟨lid :: ids, ps⟩]⟩] chains polymers =
        .error (.nameError "self")) := by
  refine ⟨?_, ?_, ?_⟩
  · intro nodes chains polymers m hex hok
    rcases hex with ⟨node, hnode, hatt⟩
    cases hm : mapE (processModNode chains polymers) nodes with
    | error e =>
      have hbad : modificationsLoad nodes chains polymers = .error e := by
        unfold modificationsLoad
        rw [hm]
      rw [hbad] at hok
      exact Except.noConfusion hok
    | ok results =>
      rcases mapE_ok_mem hm node hnode with ⟨r, hr⟩
      exact hatt (processModNode_atts_empty hr).2
  · intro nodes chains polymers m h
    cases hm : mapE (processModNode chains polymers) nodes with
    | error e =>
      have hbad : modificationsLoad nodes chains polymers = .error e := by
        unfold modificationsLoad
        rw [hm]
      rw [hbad] at h
      exact Except.noConfusion h
    | ok results =>
      have hval : modificationsLoad nodes chains polymers =
          .ok ⟨nameGroups 0 (pyListSort ltGroup (results.filterMap Prod.fst)),
            ((nameGroups 0 (pyListSort ltGroup (results.filterMap Prod.fst))).map
              Substitution.points).flatten,
            List.insertionSort leAtt ((results.map Prod.snd).flatten)⟩ := by
        unfold modificationsLoad
        rw [hm]
      rw [hval] at h
      rw [← okEq h]
      have hflat : (results.map Prod.snd).flatten = [] := by
        apply List.flatten_eq_nil_iff.mpr
        intro x hx
        rcases List.mem_map.1 hx with ⟨r, hr, hxr⟩
        rcases mapE_mem_rev hm r hr with ⟨node, _, hpn⟩
        rw [← hxr]
        exact (processModNode_atts_empty hpn).1
      simp only [hflat]
      rfl
  · intro chains polymers g lid ids ps ch hlook
    have hmk : makeAttachmentPoints g [⟨lid :: ids, ps⟩] chains =
        .error (.nameError "self") := by
      unfold makeAttachmentPoints
      simp [chainLookupE, hlook]
    have hpn : processModNode chains polymers ⟨[g], [], [⟨lid :: ids, ps⟩]⟩ =
        .error (.nameError "self") := by
      unfold processModNode
      simp [List.isEmpty, hmk]
    unfold modificationsLoad
    simp [mapE, hpn]

/-- C10 (counterexample).  A moiety with two attachment bonds also defeats
extraction, but with the bond-count SPLDocumentError — not a name-resolution
error — so the claim's universally quantified error kind is too strong. -/
theorem c10_counterexample :
    modificationsLoad [⟨["G"], [], [⟨["c1"], [1]⟩, ⟨["c1"], [2]⟩]⟩] demoChains demoPolymers =
      .error (.splDocument "Expecting one amino acid substitution point element") ∧
    ∀ nm, (Err.splDocument "Expecting one amino acid substitution point element") ≠
      .nameError nm := by
  refine ⟨by decide, ?_⟩
  intro nm hc
  exact Err.noConfusion hc

/-- C10 witness: the amended theorem applied at a single resolvable attachment
bond, hypotheses discharged by evaluation. -/
theorem c10_attachments_amended_witness :
    modificationsLoad [⟨["G"], [], [⟨["c1"], [7]⟩]⟩] demoChains demoPolymers =
      .error (.nameError "self") :=
  c10_attachments_amended.2.2 demoChains demoPolymers "G" "c1" [] [7] ⟨"c1", "V", "chain0"⟩
    (by decide)
